import Mathlib

/-!
# Verification of boulder's policy, storage-model and rate-limit code

Shallow embedding, in Lean 4, of the Go sources under `src/`:
`policy/pa.go`, `sa/model.go` and the rate-limit override export code
(`src/unnamed/part_001`, package `ratelimits`), together with models of the
Go standard-library helpers they call (`net/netip`, `strings`,
`time.Duration.String`) and of repository packages that are not part of the
source snapshot (`iana`, the `ratelimits` Name enum), the latter modelled
from the specification.

Strings are manipulated through their character lists; Go byte strings in the
sources are ASCII wherever the checked properties are concerned, so
characters stand in for bytes (the one place where a non-ASCII byte matters,
`isDNSCharacter`, rejects every byte ≥ 0x80, and the corresponding character
check rejects every character ≥ 0x80, giving the same verdict).
-/

namespace Boulder

/-! ## Go `strings` helpers -/

/-- Model of Go `strings.Split(s, sep)` for a one-character separator,
on character lists. `splitChar c []` is `[[]]`, matching
`strings.Split("", sep) == [""]`. -/
def splitChar (sep : Char) : List Char → List (List Char)
  | [] => [[]]
  | c :: rest =>
    let r := splitChar sep rest
    if c == sep then [] :: r
    else (c :: r.headI) :: r.tail

/-- Model of Go `strings.Join(parts, sep)` for a one-character separator. -/
def joinChar (sep : Char) (parts : List (List Char)) : List Char :=
  List.intercalate [sep] parts

/-- Model of Go `strings.SplitN(s, sep, 2)` for a one-character separator:
either one part (no separator present) or two parts split at the first
separator. -/
def splitN2Char (sep : Char) : List Char → List (List Char)
  | [] => [[]]
  | c :: rest =>
    if c == sep then [[], rest]
    else
      match splitN2Char sep rest with
      | [] => [[c]]
      | p :: ps => (c :: p) :: ps

/-- Model of Go `strings.HasPrefix`. -/
def startsWithL (pre l : List Char) : Bool := pre.isPrefixOf l

/-- Model of Go `strings.TrimPrefix`. -/
def goTrimPre (pre l : List Char) : List Char :=
  if startsWithL pre l then l.drop pre.length else l

/-- Model of Go `strings.Count(s, sub)` for a one-character `sub`. -/
def countCharL (c : Char) (l : List Char) : Nat := l.count c

/-- Model of Go `strings.Contains(s, sub)` for a one-character `sub`. -/
def containsCharL (c : Char) (l : List Char) : Bool := l.contains c

/-- Model of Go `strings.HasSuffix`. -/
def endsWithL (suf l : List Char) : Bool := suf.isSuffixOf l

/-- Byte-range test `lo <= c && c <= hi` as the Go code performs on bytes;
stated on code points, which agrees on the ASCII subset. -/
def inRange (lo hi c : Char) : Bool := lo.toNat ≤ c.toNat ∧ c.toNat ≤ hi.toNat

/-- ASCII lower-casing of one character, as Go `strings.ToLower` acts on the
ASCII subset (every string the checked properties feed to it is ASCII). -/
def lowerChar (c : Char) : Char :=
  if inRange 'A' 'Z' c then Char.ofNat (c.toNat + 32) else c

/-- Model of `strings.ToLower` (ASCII subset, see `lowerChar`). -/
def goToLower (s : String) : String := String.mk (s.data.map lowerChar)

/-- Go `strings.IndexByte`-style split at the first occurrence of `c`:
`none` when absent, otherwise the parts before and after. -/
def splitAtFirst (c : Char) : List Char → Option (List Char × List Char)
  | [] => none
  | x :: rest =>
    if x == c then some ([], rest)
    else (splitAtFirst c rest).map (fun p => (x :: p.1, p.2))

/-! ## Decimal and hexadecimal digit rendering (Go `strconv` / `net/netip`) -/

def decDigitChar (n : Nat) : Char := Char.ofNat (48 + n)

def hexDigitCharLower (n : Nat) : Char :=
  if n < 10 then Char.ofNat (48 + n) else Char.ofNat (87 + n)

/-- Decimal digits of `n`, most significant first (`fuel`-structured; any
`fuel > log10 n` gives the digits of `n`). -/
def natDecChars : Nat → Nat → List Char
  | 0, _ => []
  | fuel + 1, n =>
    if n < 10 then [decDigitChar n]
    else natDecChars fuel (n / 10) ++ [decDigitChar (n % 10)]

/-- Model of Go decimal formatting of a natural number (`strconv.Itoa` on
non-negative input, `fmt` `%d`). -/
def natToChars (n : Nat) : List Char := natDecChars (n + 1) n

/-- Lowercase hexadecimal digits of `n` without leading zeros, as
`net/netip`'s `appendHexUint16` prints 16-bit groups. -/
def natHexChars : Nat → Nat → List Char
  | 0, _ => []
  | fuel + 1, n =>
    if n < 16 then [hexDigitCharLower n]
    else natHexChars fuel (n / 16) ++ [hexDigitCharLower (n % 16)]

def natToHexChars (n : Nat) : List Char := natHexChars (n + 1) n

/-- Go `strconv.Atoi` restricted to the shapes the embedded code feeds it:
an optional leading `-` followed by one or more decimal digits. -/
def goAtoi (l : List Char) : Option Int :=
  match l with
  | [] => none
  | '-' :: rest =>
    if rest ≠ [] ∧ rest.all Char.isDigit then
      some (-(Int.ofNat (rest.foldl (fun a c => a * 10 + (c.toNat - 48)) 0)))
    else none
  | _ =>
    if l.all Char.isDigit then
      some (Int.ofNat (l.foldl (fun a c => a * 10 + (c.toNat - 48)) 0))
    else none

/-! ## Model of `net/netip` addresses

`netip.Addr` is modelled as either four IPv4 bytes or eight 16-bit IPv6
groups plus a zone. The parser follows `net/netip.ParseAddr` (Go 1.22
sources) and the printer follows `netip.Addr.String`, including the RFC 5952
longest-zero-run compression and the `::ffff:a.b.c.d` form for
IPv4-mapped addresses. -/

inductive Addr where
  | v4 (b0 b1 b2 b3 : Nat)
  | v6 (groups : List Nat) (zone : String)
  deriving DecidableEq, Repr

namespace Addr

/-- Model of `netip.Addr.WithZone`; a no-op on IPv4 addresses. -/
def withZone : Addr → String → Addr
  | v4 a b c d, _ => v4 a b c d
  | v6 g _, z => v6 g z

def zone : Addr → String
  | v4 _ _ _ _ => ""
  | v6 _ z => z

/-- Model of `netip.Addr.Is4In6`: the first five groups are zero and the
sixth is `0xffff`. -/
def is4In6 (g : List Nat) : Bool :=
  g.take 5 == [0, 0, 0, 0, 0] && g.getD 5 0 == 0xffff

end Addr

/-- Model of `net/netip`'s `parseIPv4`: four dot-separated decimal fields,
each of one to three digits, without leading zeros, each at most 255. -/
def parseIPv4 (l : List Char) : Option (Nat × Nat × Nat × Nat) :=
  let fieldVal : List Char → Option Nat := fun f =>
    if f = [] then none
    else if ¬ f.all Char.isDigit then none
    else if f.length > 3 then none
    else if f.length > 1 ∧ f.headI = '0' then none
    else
      let v := f.foldl (fun a c => a * 10 + (c.toNat - 48)) 0
      if v ≤ 255 then some v else none
  match splitChar '.' l with
  | [f0, f1, f2, f3] => do
    let a ← fieldVal f0
    let b ← fieldVal f1
    let c ← fieldVal f2
    let d ← fieldVal f3
    pure (a, b, c, d)
  | _ => none

/-- One hexadecimal group of an IPv6 address: greedily consume hex digits,
failing on zero digits or on an accumulator exceeding `0xffff` at any step,
exactly as the digit loop of `net/netip.parseIPv6` does. -/
def takeHexGroup (l : List Char) : Option (Nat × List Char) :=
  let rec go : List Char → Nat → Nat → Option (Nat × Nat × List Char)
    | [], acc, n => if n = 0 then none else some (acc, n, [])
    | c :: rest, acc, n =>
      match hexVal c with
      | none => if n = 0 then none else some (acc, n, c :: rest)
      | some v =>
        let acc' := acc * 16 + v
        if acc' > 0xffff then none else go rest acc' (n + 1)
  (go l 0 0).map (fun r => (r.1, r.2.2))
where
  hexVal (c : Char) : Option Nat :=
    if '0' ≤ c ∧ c ≤ '9' then some (c.toNat - 48)
    else if 'a' ≤ c ∧ c ≤ 'f' then some (c.toNat - 87)
    else if 'A' ≤ c ∧ c ≤ 'F' then some (c.toNat - 55)
    else none

/-- Ellipsis expansion at the end of `parseIPv6`: groups before the `::`
position, then zeros, then the rest. -/
def expandEllipsis (groups : List Nat) (ell : Option Nat) : Option (List Nat) :=
  if groups.length < 8 then
    match ell with
    | none => none
    | some e => some (groups.take e ++ List.replicate (8 - groups.length) 0 ++ groups.drop e)
  else
    match ell with
    | some _ => none
    | none => if groups.length = 8 then some groups else none

/-- The main field loop of `net/netip.parseIPv6`, one call per iteration of
the Go `for i < 16` loop; `groups` holds the 16-bit fields parsed so far and
`ell` the `::` position in fields. -/
def p6loop : Nat → List Char → List Nat → Option Nat → Option (List Nat)
  | 0, _, _, _ => none
  | fuel + 1, s, groups, ell =>
    match takeHexGroup s with
    | none => none
    | some (acc, rest) =>
      if rest.headI = '.' ∧ rest ≠ [] then
        -- Embedded IPv4: must replace the final two fields unless an
        -- ellipsis is present, and must fit.
        if ell.isNone ∧ groups.length ≠ 6 then none
        else if groups.length + 2 > 8 then none
        else
          match parseIPv4 s with
          | none => none
          | some (a, b, c, d) =>
            expandEllipsis (groups ++ [a * 256 + b, c * 256 + d]) ell
      else
        let groups' := groups ++ [acc]
        match rest with
        | [] => expandEllipsis groups' ell
        | r0 :: rtail =>
          if r0 ≠ ':' then none
          else if rtail = [] then none
          else if rtail.headI = ':' then
            -- `::` found.
            if ell.isSome then none
            else
              let rtail' := rtail.tail
              if rtail' = [] then expandEllipsis groups' (some groups'.length)
              else if groups'.length < 8 then p6loop fuel rtail' groups' (some groups'.length)
              else none
          else if groups'.length < 8 then p6loop fuel rtail groups' ell
          else none

/-- The body of `net/netip.parseIPv6` after the zone has been stripped:
handle a leading `::`, then run the field loop. -/
def parseIPv6core (s : List Char) (z : String) : Option Addr :=
  if startsWithL [':', ':'] s then
    if s.drop 2 = [] then some (Addr.v6 (List.replicate 8 0) z)
    else (p6loop 9 (s.drop 2) [] (some 0)).map (fun g => Addr.v6 g z)
  else
    (p6loop 9 s [] none).map (fun g => Addr.v6 g z)

/-- Model of `net/netip.parseIPv6`: strip a non-empty zone after `%`, then
parse the address part. -/
def parseIPv6 (l : List Char) : Option Addr :=
  match splitAtFirst '%' l with
  | some (before, after) =>
    if String.mk after = "" then none
    else parseIPv6core before (String.mk after)
  | none => parseIPv6core l ""

/-- Model of `net/netip.ParseAddr`: dispatch on the first `.`, `:` or `%`. -/
def parseAddr (s : String) : Option Addr :=
  let rec dispatch : List Char → Option Char
    | [] => none
    | c :: rest =>
      if c = '.' ∨ c = ':' ∨ c = '%' then some c else dispatch rest
  match dispatch s.data with
  | some '.' => (parseIPv4 s.data).map (fun r => Addr.v4 r.1 r.2.1 r.2.2.1 r.2.2.2)
  | some ':' => parseIPv6 s.data
  | _ => none

/-- Longest run of at least two consecutive zero groups (leftmost among
equals), as computed by `netip.Addr.appendTo6`; `(255, 255)` when none. -/
def zeroRun (g : List Nat) : Nat × Nat :=
  let runLen : Nat → Nat := fun i =>
    ((List.range (8 - i)).takeWhile (fun k => g.getD (i + k) 0 = 0)).length
  (List.range 8).foldl
    (fun best i =>
      let l := runLen i
      if l ≥ 2 ∧ l > best.2 - best.1 then (i, i + l) else best)
    (255, 255)

/-- The group-printing loop of `netip.Addr.appendTo6`. -/
def v6chunks (g : List Nat) (zs ze : Nat) : Nat → Nat → List Char
  | 0, _ => []
  | fuel + 1, i =>
    if i ≥ 8 then []
    else if i = zs then
      ':' :: ':' ::
        (if ze ≥ 8 then []
         else natToHexChars (g.getD ze 0) ++ v6chunks g zs ze fuel (ze + 1))
    else
      (if i > 0 then [':'] else []) ++ natToHexChars (g.getD i 0) ++ v6chunks g zs ze fuel (i + 1)

def renderV4 (a b c d : Nat) : List Char :=
  natToChars a ++ '.' :: natToChars b ++ '.' :: natToChars c ++ '.' :: natToChars d

/-- The zone-free part of `netip.Addr.String` for a 16-byte address: the
`::ffff:a.b.c.d` form for IPv4-mapped addresses, RFC 5952 text otherwise. -/
def render6core (g : List Nat) : List Char :=
  if Addr.is4In6 g then
    [':', ':', 'f', 'f', 'f', 'f', ':'] ++
      renderV4 (g.getD 6 0 / 256) (g.getD 6 0 % 256) (g.getD 7 0 / 256) (g.getD 7 0 % 256)
  else
    v6chunks g (zeroRun g).1 (zeroRun g).2 9 0

/-- Model of `netip.Addr.String`. -/
def Addr.render : Addr → String
  | Addr.v4 a b c d => String.mk (renderV4 a b c d)
  | Addr.v6 g z =>
    if z = "" then String.mk (render6core g)
    else String.mk (render6core g ++ '%' :: z.data)

/-! ## Model of `boulder/errors` and `boulder/identifier` -/

/-- The error kinds that the embedded code constructs (`berrors.ErrorType`
values, plus `plain` for errors built with `fmt.Errorf`/`errors.New`). -/
inductive ErrType where
  | malformed
  | rejectedIdentifier
  | invalidEmail
  | internalServerError
  | plain
  deriving DecidableEq, Repr

/-- Model of `identifier.ACMEIdentifier`: a type tag (the Go type is a
string; `"dns"` and `"ip"` are the known values) and a value. -/
structure Ident where
  typ : String
  value : String
  deriving DecidableEq, Repr

def TypeDNS : String := "dns"
def TypeIP : String := "ip"

/-- Model of `berrors.SubBoulderError`: an identifier together with the
kind and detail of its error. -/
structure SubErr where
  ident : Ident
  typ : ErrType
  detail : String
  deriving DecidableEq, Repr

/-- Model of `berrors.BoulderError` (and of plain Go errors, kind
`plain`). -/
structure BErr where
  typ : ErrType
  detail : String
  subs : List SubErr := []
  deriving DecidableEq, Repr

def malformedError (d : String) : BErr := ⟨ErrType.malformed, d, []⟩
def rejectedIdentifierError (d : String) : BErr := ⟨ErrType.rejectedIdentifier, d, []⟩
def internalServerError (d : String) : BErr := ⟨ErrType.internalServerError, d, []⟩
def plainError (d : String) : BErr := ⟨ErrType.plain, d, []⟩

/-- Go `fmt` `%q` on the plain printable ASCII strings the embedded code
quotes (no escaping beyond the surrounding quotes is modelled). -/
def goQuote (s : String) : String := "\"" ++ s ++ "\""

/-! ## Model of `policy/pa.go` -/

/-- The error values of `policy/pa.go`. -/
def errNonPublic : BErr := malformedError "Domain name does not end with a valid public suffix (TLD)"
def errICANNTLD : BErr := malformedError "Domain name is an ICANN TLD"
def errPolicyForbidden : BErr := rejectedIdentifierError "The ACME server refuses to issue a certificate for this domain name, because it is forbidden by policy"
def errInvalidDNSCharacter : BErr := malformedError "Domain name contains an invalid character"
def errNameTooLong : BErr := malformedError "Domain name is longer than 253 bytes"
def errIPAddressInDNS : BErr := malformedError "Identifier type is DNS but value is an IP address"
def errIPInvalid : BErr := malformedError "IP address is invalid"
def errTooManyLabels : BErr := malformedError "Domain name has more than 10 labels (parts)"
def errEmptyIdentifier : BErr := malformedError "Identifier value (name) is empty"
def errNameEndsInDot : BErr := malformedError "Domain name ends in a dot"
def errTooFewLabels : BErr := malformedError "Domain name needs at least one dot"
def errLabelTooShort : BErr := malformedError "Domain name can not have two dots in a row"
def errLabelTooLong : BErr := malformedError "Domain has a label (component between dots) longer than 63 bytes"
def errMalformedIDN : BErr := malformedError "Domain name contains malformed punycode"
def errInvalidRLDH : BErr := rejectedIdentifierError "Domain name contains an invalid label in a reserved format (R-LDH: '??--')"
def errTooManyWildcards : BErr := malformedError "Domain name has more than one wildcard"
def errMalformedWildcard : BErr := malformedError "Domain name contains an invalid wildcard. A wildcard is only permitted before the first dot in a domain name"
def errICANNTLDWildcard : BErr := malformedError "Domain name is a wildcard for an ICANN TLD"
def errWildcardNotSupported : BErr := malformedError "Wildcard domain names are not supported"
def errUnsupportedIdent : BErr := malformedError "Invalid identifier type"

def maxLabels : Nat := 10
def maxLabelLength : Nat := 63
def maxDNSIdentifierLength : Nat := 253

/-- Model of `isDNSCharacter` (pa.go); on a multi-byte UTF-8 character the
Go byte-wise check fails on its first byte ≥ 0x80, and this check fails on
the character, giving the same verdict. -/
def isDNSCharacter (ch : Char) : Bool :=
  inRange 'a' 'z' ch ∨
  inRange 'A' 'Z' ch ∨
  inRange '0' '9' ch ∨
  ch = '.' ∨ ch = '-'

/-- Model of the regular expression `^[a-z0-9-]+$`
(`dnsLabelCharacterRegexp`). -/
def dnsLabelCharMatch (l : List Char) : Bool :=
  l ≠ [] && l.all (fun c => inRange 'a' 'z' c ∨ inRange '0' '9' c ∨ c = '-')

/-- Modelled from the spec: the set of IANA-registered public suffixes used
by `iana.ExtractSuffix` (the `iana` package is not part of the source
snapshot). A representative registry standing in for the real ICANN list;
the checked properties only need the membership of the suffixes they
mention. -/
def icannTLDs : List (List Char) :=
  ["com".data, "net".data, "org".data, "c".data, "cd".data, "test".data]

/-- Modelled from the spec: `iana.ExtractSuffix` returns the longest
registered public suffix of the domain on a label boundary (scanning label
suffixes longest first), and an error (`none`) when the domain does not end
in a registered suffix. -/
def extractSuffix (domain : List Char) : Option (List Char) :=
  let labels := splitChar '.' domain
  let rec scan : List (List Char) → Option (List Char)
    | [] => none
    | ls@(_ :: rest) =>
      let joined := joinChar '.' ls
      if icannTLDs.contains joined then some joined else scan rest
  scan labels

/-- The per-label checks inside `validNonWildcardDomain`'s `for _, label`
loop. `idnaOk` models `idna.ToUnicode` followed by the NFC normality check
(`golang.org/x/net/idna` and `x/text/unicode/norm` are external libraries);
it holds of a label when the label is a valid `xn--` P-label whose Unicode
form is NFC-normalized. -/
def checkLabel (idnaOk : List Char → Bool) (label : List Char) : Option BErr :=
  if label.length < 1 then some errLabelTooShort
  else if label.length > maxLabelLength then some errLabelTooLong
  else if ¬ dnsLabelCharMatch label then some errInvalidDNSCharacter
  else if label.headI = '-' ∨ label.getLast? = some '-' then some errInvalidDNSCharacter
  else if label.length ≥ 4 ∧ (label.drop 2).take 2 = ['-', '-'] then
    if label.take 2 ≠ ['x', 'n'] then some errInvalidRLDH
    else if ¬ idnaOk label then some errMalformedIDN
    else none
  else none

def checkLabels (idnaOk : List Char → Bool) : List (List Char) → Option BErr
  | [] => none
  | l :: rest =>
    match checkLabel idnaOk l with
    | some e => some e
    | none => checkLabels idnaOk rest

/-- Model of `validNonWildcardDomain` (pa.go). -/
def validNonWildcardDomain (idnaOk : List Char → Bool) (domain : String) : Option BErr :=
  if domain.data = [] then some errEmptyIdentifier
  else if startsWithL ['*', '.'] domain.data then some errWildcardNotSupported
  else if ¬ domain.data.all isDNSCharacter then some errInvalidDNSCharacter
  else if domain.data.length > maxDNSIdentifierLength then some errNameTooLong
  else if (parseAddr domain).isSome then some errIPAddressInDNS
  else if endsWithL ['.'] domain.data then some errNameEndsInDot
  else if (splitChar '.' domain.data).length > maxLabels then some errTooManyLabels
  else if (splitChar '.' domain.data).length < 2 then some errTooFewLabels
  else
    match checkLabels idnaOk (splitChar '.' domain.data) with
    | some e => some e
    | none =>
      match extractSuffix domain.data with
      | none => some errNonPublic
      | some icannTLD =>
        if icannTLD = domain.data then some errICANNTLD else none

/-- Model of `ValidDomain` (pa.go); `goTrimPre ['*', '.'] domain.data` is
the `baseDomain` of the Go source. -/
def ValidDomain (idnaOk : List Char → Bool) (domain : String) : Option BErr :=
  if countCharL '*' domain.data ≤ 0 then validNonWildcardDomain idnaOk domain
  else if countCharL '*' domain.data > 1 then some errTooManyWildcards
  else if ¬ startsWithL ['*', '.'] domain.data then some errMalformedWildcard
  else
    match extractSuffix (goTrimPre ['*', '.'] domain.data) with
    | none => some errNonPublic
    | some icannTLD =>
      if goTrimPre ['*', '.'] domain.data = icannTLD then some errICANNTLDWildcard
      else validNonWildcardDomain idnaOk (String.mk (goTrimPre ['*', '.'] domain.data))

/-- An IPv4 or IPv6 CIDR block: the address and the bit count. -/
structure IPBlock where
  addr : Addr
  bits : Nat
  deriving DecidableEq, Repr

def addrBits : Addr → Nat × Nat
  | Addr.v4 a b c d => (32, ((a * 256 + b) * 256 + c) * 256 + d)
  | Addr.v6 g _ => (128, g.foldl (fun acc x => acc * 65536 + x) 0)

/-- Model of `netip.Prefix.Contains`: same address family and equal
leading bits. -/
def IPBlock.contains (p : IPBlock) (a : Addr) : Bool :=
  let wp := addrBits p.addr
  let wa := addrBits a
  wp.1 == wa.1 && wp.2 / 2 ^ (wp.1 - p.bits) == wa.2 / 2 ^ (wa.1 - p.bits)

/-- Model of `netip.ParsePrefix`: an address (zone-free), `/`, and a bit
count within the family's width (split at the last `/`). -/
def parseCidr (s : String) : Option IPBlock :=
  let l := s.data
  match (splitAtFirst '/' l.reverse).map (fun p => (p.2.reverse, p.1.reverse)) with
  | none => none
  | some (before, after) => do
    let a ← parseAddr (String.mk before)
    if a.zone ≠ "" then none
    else if after = [] ∨ ¬ after.all Char.isDigit ∨ (after.length > 1 ∧ after.headI = '0') then none
    else
      let b := after.foldl (fun acc c => acc * 10 + (c.toNat - 48)) 0
      if b ≤ (addrBits a).1 then some ⟨a, b⟩ else none

/-- Modelled from the spec: the IANA special-purpose address registries
consulted by `iana.IsReservedAddr` (the `iana` package is not part of the
source snapshot), as CIDR blocks. -/
def reservedBlocks : List IPBlock :=
  [⟨Addr.v4 0 0 0 0, 8⟩, ⟨Addr.v4 10 0 0 0, 8⟩, ⟨Addr.v4 100 64 0 0, 10⟩,
   ⟨Addr.v4 127 0 0 0, 8⟩, ⟨Addr.v4 169 254 0 0, 16⟩, ⟨Addr.v4 172 16 0 0, 12⟩,
   ⟨Addr.v4 192 0 0 0, 24⟩, ⟨Addr.v4 192 0 2 0, 24⟩, ⟨Addr.v4 192 88 99 0, 24⟩,
   ⟨Addr.v4 192 168 0 0, 16⟩, ⟨Addr.v4 198 18 0 0, 15⟩, ⟨Addr.v4 198 51 100 0, 24⟩,
   ⟨Addr.v4 203 0 113 0, 24⟩, ⟨Addr.v4 240 0 0 0, 4⟩, ⟨Addr.v4 255 255 255 255, 32⟩,
   ⟨Addr.v6 [0, 0, 0, 0, 0, 0, 0, 0] "", 128⟩,
   ⟨Addr.v6 [0, 0, 0, 0, 0, 0, 0, 1] "", 128⟩,
   ⟨Addr.v6 [0, 0, 0, 0, 0, 0xffff, 0, 0] "", 96⟩,
   ⟨Addr.v6 [0x64, 0xff9b, 0, 0, 0, 0, 0, 0] "", 96⟩,
   ⟨Addr.v6 [0x64, 0xff9b, 1, 0, 0, 0, 0, 0] "", 48⟩,
   ⟨Addr.v6 [0x100, 0, 0, 0, 0, 0, 0, 0] "", 64⟩,
   ⟨Addr.v6 [0x2001, 0, 0, 0, 0, 0, 0, 0] "", 23⟩,
   ⟨Addr.v6 [0x2001, 0xdb8, 0, 0, 0, 0, 0, 0] "", 32⟩,
   ⟨Addr.v6 [0x2002, 0, 0, 0, 0, 0, 0, 0] "", 16⟩,
   ⟨Addr.v6 [0xfc00, 0, 0, 0, 0, 0, 0, 0] "", 7⟩,
   ⟨Addr.v6 [0xfe80, 0, 0, 0, 0, 0, 0, 0] "", 10⟩,
   ⟨Addr.v6 [0xff00, 0, 0, 0, 0, 0, 0, 0] "", 8⟩]

/-- Modelled from the spec: `iana.IsReservedAddr` returns an error exactly
when the address lies in an IANA special-purpose address registry. -/
def IsReservedAddr (a : Addr) : Option BErr :=
  if reservedBlocks.any (fun p => p.contains a) then
    some (plainError "IP address is in a reserved address block")
  else none

/-- Model of `ValidIP` (pa.go). -/
def ValidIP (ip : String) : Option BErr :=
  if ip = "" then some errEmptyIdentifier
  else
    match parseAddr ip with
    | none => some errIPInvalid
    | some parsedIP =>
      if (parsedIP.withZone "").render ≠ ip then some errIPInvalid
      else IsReservedAddr parsedIP

instance {ε α : Type} [DecidableEq ε] [DecidableEq α] : DecidableEq (Except ε α)
  | Except.ok a, Except.ok b =>
    if h : a = b then Decidable.isTrue (by rw [h])
    else Decidable.isFalse (fun hh => h (Except.ok.inj hh))
  | Except.error a, Except.error b =>
    if h : a = b then Decidable.isTrue (by rw [h])
    else Decidable.isFalse (fun hh => h (Except.error.inj hh))
  | Except.ok _, Except.error _ => Decidable.isFalse (fun hh => Except.noConfusion hh)
  | Except.error _, Except.ok _ => Decidable.isFalse (fun hh => Except.noConfusion hh)

/-- A Go `map[string]bool` used as a set: `none` models a nil map (policy
not yet loaded), `some l` a map whose `true` keys are the members of `l`. -/
def GoStrSet := Option (List String)

def GoStrSet.lookup (m : GoStrSet) (k : String) : Bool :=
  match m with
  | none => false
  | some l => l.contains k

def GoStrSet.isNil (m : GoStrSet) : Bool :=
  match m with
  | none => true
  | some _ => false

/-- Model of `policy.AuthorityImpl` (the logger and the mutex carry no
state relevant to the checked properties). -/
structure AuthorityImpl where
  domainBlocklist : GoStrSet
  fqdnBlocklist : GoStrSet
  wildcardFqdnBlocklist : GoStrSet
  ipPrefixBlocklist : List IPBlock
  enabledChallenges : List String
  enabledIdentifiers : List String

/-- Model of `blockedIdentsPolicy` (pa.go). -/
structure BlockedIdentsPolicy where
  ExactBlockedNames : List String
  HighRiskBlockedNames : List String
  AdminBlockedNames : List String
  AdminBlockedPrefixes : List String
  deriving DecidableEq, Repr

/-- The `ExactBlockedNames` loop of `processIdentPolicy`: builds the exact
and wildcard-exact name maps, failing on an entry with fewer than two
labels. -/
def buildExactMaps : List String → Except BErr (List String × List String)
  | [] => Except.ok ([], [])
  | v :: rest =>
    match splitN2Char '.' v.data with
    | [_, second] => do
      let (es, ws) ← buildExactMaps rest
      pure (v :: es, String.mk second :: ws)
    | _ =>
      Except.error (plainError ("malformed ExactBlockedNames entry, only one label: " ++ goQuote v))

/-- The `AdminBlockedPrefixes` loop of `processIdentPolicy`. -/
def buildIPBlocks : List String → Except BErr (List IPBlock)
  | [] => Except.ok []
  | p :: rest =>
    match parseCidr p with
    | none => Except.error (plainError ("malformed AdminBlockedPrefixes entry, not a prefix: " ++ goQuote p))
    | some blk => do
      let bs ← buildIPBlocks rest
      pure (blk :: bs)

/-- Model of `processIdentPolicy` (pa.go): returns the updated authority
and `none`, or the unchanged authority and the error. The Go method
mutates the four blocklist tables only in the final lock-protected block,
after every validation has passed. -/
def processIdentPolicy (pa : AuthorityImpl) (policy : BlockedIdentsPolicy) :
    AuthorityImpl × Option BErr :=
  let nameMap := policy.HighRiskBlockedNames ++ policy.AdminBlockedNames
  match buildExactMaps policy.ExactBlockedNames with
  | Except.error e => (pa, some e)
  | Except.ok (exactNameMap, wildcardNameMap) =>
    match buildIPBlocks policy.AdminBlockedPrefixes with
    | Except.error e => (pa, some e)
    | Except.ok blocks =>
      ({ pa with
          domainBlocklist := some nameMap
          fqdnBlocklist := some exactNameMap
          wildcardFqdnBlocklist := some wildcardNameMap
          ipPrefixBlocklist := blocks }, none)

/-- Model of `LoadIdentPolicyFile` (pa.go); `readFile` models `os.ReadFile`
and `unmarshal` models `strictyaml.Unmarshal` into a
`blockedIdentsPolicy` (the hash logging carries no state). -/
def LoadIdentPolicyFile (readFile : String → Option String)
    (unmarshal : String → Option BlockedIdentsPolicy)
    (pa : AuthorityImpl) (f : String) : AuthorityImpl × Option BErr :=
  match readFile f with
  | none => (pa, some (plainError "read error"))
  | some configBytes =>
    match unmarshal configBytes with
    | none => (pa, some (plainError "unmarshal error"))
    | some policy =>
      if policy.HighRiskBlockedNames.length = 0 then
        (pa, some (plainError "no entries in HighRiskBlockedNames"))
      else if policy.ExactBlockedNames.length = 0 then
        (pa, some (plainError "no entries in ExactBlockedNames"))
      else processIdentPolicy pa policy

/-- Model of `subError` (pa.go): every error the embedding produces is a
`BErr`, so the `errors.As` branch always succeeds. -/
def subError (ident : Ident) (err : BErr) : SubErr :=
  ⟨ident, err.typ, err.detail⟩

/-- Model of `combineSubErrors` (pa.go). -/
def combineSubErrors (subErrors : List SubErr) : Option BErr :=
  match subErrors with
  | [] => none
  | [s] =>
    some (rejectedIdentifierError
      ("Cannot issue for " ++ goQuote s.ident.value ++ ": " ++ s.detail))
  | s :: rest =>
    some { typ := ErrType.rejectedIdentifier
           detail := "Cannot issue for " ++ goQuote s.ident.value ++ ": " ++ s.detail ++
             " (and " ++ String.mk (natToChars rest.length) ++
             " more problems. Refer to sub-problems for more information.)"
           subs := s :: rest }

/-- Model of `WellFormedIdentifiers` (pa.go). -/
def WellFormedIdentifiers (idnaOk : List Char → Bool) (idents : List Ident) : Option BErr :=
  let subErrors := idents.foldr
    (fun ident acc =>
      if ident.typ = TypeDNS then
        match ValidDomain idnaOk ident.value with
        | some err => subError ident err :: acc
        | none => acc
      else if ident.typ = TypeIP then
        match ValidIP ident.value with
        | some err => subError ident err :: acc
        | none => acc
      else subError ident errUnsupportedIdent :: acc)
    []
  combineSubErrors subErrors

/-- Model of `checkWildcardBlocklist` (pa.go). -/
def checkWildcardBlocklist (pa : AuthorityImpl) (domain : String) : Option BErr :=
  if pa.wildcardFqdnBlocklist.isNil then some (plainError "identifier policy not yet loaded")
  else if pa.wildcardFqdnBlocklist.lookup domain then some errPolicyForbidden
  else none

/-- The label-suffix loop of `checkBlocklists`: for each `i`, test the join
of `labels[i:]` against the domain blocklist. -/
def checkDomainSuffixes (bl : GoStrSet) : List (List Char) → Option BErr
  | [] => none
  | labels@(_ :: rest) =>
    if bl.lookup (String.mk (joinChar '.' labels)) then some errPolicyForbidden
    else checkDomainSuffixes bl rest

/-- Model of `checkBlocklists` (pa.go). -/
def checkBlocklists (pa : AuthorityImpl) (ident : Ident) : Option BErr :=
  if pa.domainBlocklist.isNil then some (plainError "identifier policy not yet loaded")
  else if ident.typ = TypeDNS then
    match checkDomainSuffixes pa.domainBlocklist (splitChar '.' ident.value.data) with
    | some e => some e
    | none =>
      if pa.fqdnBlocklist.lookup ident.value then some errPolicyForbidden
      else none
  else if ident.typ = TypeIP then
    match parseAddr ident.value with
    | none => some errIPInvalid
    | some ip =>
      if pa.ipPrefixBlocklist.any (fun p => p.contains (ip.withZone "")) then
        some errPolicyForbidden
      else none
  else some errUnsupportedIdent

/-- Model of `IdentifierTypeEnabled` (pa.go). -/
def IdentifierTypeEnabled (pa : AuthorityImpl) (t : String) : Bool :=
  pa.enabledIdentifiers.contains t

/-- The per-identifier body of `WillingToIssue`'s loop, producing the
sub-errors the iteration appends. -/
def willingToIssueSubErrors (pa : AuthorityImpl) (ident : Ident) : List SubErr :=
  if ¬ IdentifierTypeEnabled pa ident.typ then
    [subError ident (rejectedIdentifierError "The ACME server has disabled this identifier type")]
  else if ident.typ = TypeDNS ∧ countCharL '*' ident.value.data > 0 then
    match checkWildcardBlocklist pa (String.mk (goTrimPre ['*', '.'] ident.value.data)) with
    | some err => [subError ident err]
    | none =>
      match checkBlocklists pa ident with
      | some err => [subError ident err]
      | none => []
  else
    match checkBlocklists pa ident with
    | some err => [subError ident err]
    | none => []

/-- Model of `WillingToIssue` (pa.go). -/
def WillingToIssue (idnaOk : List Char → Bool) (pa : AuthorityImpl)
    (idents : List Ident) : Option BErr :=
  match WellFormedIdentifiers idnaOk idents with
  | some err => some err
  | none =>
    combineSubErrors (idents.foldr (fun ident acc => willingToIssueSubErrors pa ident ++ acc) [])

/-- The `core.AcmeChallenge` values. -/
def ChallengeTypeHTTP01 : String := "http-01"
def ChallengeTypeDNS01 : String := "dns-01"
def ChallengeTypeTLSALPN01 : String := "tls-alpn-01"
def ChallengeTypeDNSAccount01 : String := "dns-account-01"

/-- Model of `ChallengeTypesFor` (pa.go); the receiver's state is unused by
the Go method. -/
def ChallengeTypesFor (ident : Ident) : Except BErr (List String) :=
  if ident.typ = TypeDNS then
    if startsWithL ['*', '.'] ident.value.data then
      Except.ok [ChallengeTypeDNS01]
    else
      Except.ok [ChallengeTypeHTTP01, ChallengeTypeDNS01, ChallengeTypeTLSALPN01]
  else if ident.typ = TypeIP then
    Except.ok [ChallengeTypeHTTP01, ChallengeTypeTLSALPN01]
  else
    Except.error (plainError ("unrecognized identifier type " ++ goQuote ident.typ))

/-! ## Model of `sa/model.go`

Timestamps (`time.Time`, `timestamppb.Timestamp`) are modelled as integers
with `Before` as `<`. -/

def intToChars (i : Int) : List Char :=
  if i < 0 then '-' :: natToChars i.natAbs else natToChars i.natAbs

/-- The `core.AcmeStatus` strings. -/
def StatusPending : String := "pending"
def StatusValid : String := "valid"
def StatusInvalid : String := "invalid"
def StatusDeactivated : String := "deactivated"
def StatusRevoked : String := "revoked"
def StatusProcessing : String := "processing"
def StatusReady : String := "ready"

/-- Model of the `uintToStatus` map (sa/model.go); `none` models a missing
key. -/
def uintToStatus : Nat → Option String
  | 0 => some StatusPending
  | 1 => some StatusValid
  | 2 => some StatusInvalid
  | 3 => some StatusDeactivated
  | 4 => some StatusRevoked
  | _ => none

/-- Model of the `uintToChallType` map (sa/model.go); a missing key yields
the Go zero value `""`. -/
def uintToChallType : Nat → String
  | 0 => ChallengeTypeHTTP01
  | 1 => ChallengeTypeDNS01
  | 2 => ChallengeTypeTLSALPN01
  | 3 => ChallengeTypeDNSAccount01
  | _ => ""

/-- Model of the `uintToIdentifierType` map (sa/model.go). -/
def uintToIdentifierType : Nat → Option String
  | 0 => some TypeDNS
  | 1 => some TypeIP
  | _ => none

/-- Model of the fields of `corepb.Order` that `statusForOrder` reads; the
order's error is an opaque optional problem document. -/
structure OrderPB where
  id : Int
  error : Option String
  expires : Int
  v2Authorizations : List Int
  identifiers : List Ident
  certificateSerial : String
  beganProcessing : Bool
  deriving DecidableEq, Repr

/-- Model of `authzValidity` (sa/model.go). -/
structure AuthzValidity where
  identifierType : Nat
  identifierValue : String
  status : Nat
  expires : Int
  deriving DecidableEq, Repr

structure AuthzCounts where
  pendingAuthzs : Nat
  validAuthzs : Nat
  otherAuthzs : Nat
  expiredAuthzs : Nat
  deriving DecidableEq, Repr

/-- The `switch uintToStatus[info.Status]` classification inside
`statusForOrder`'s loop, failing on an unrecognized status byte as the
`default` arm does. -/
def classifyAuthz (info : AuthzValidity) : Except BErr AuthzCounts :=
  match uintToStatus info.status with
  | some s =>
    if s = StatusPending then Except.ok ⟨1, 0, 0, 0⟩
    else if s = StatusValid then Except.ok ⟨0, 1, 0, 0⟩
    else Except.ok ⟨0, 0, 1, 0⟩
  | none =>
    Except.error (internalServerError
      ("Order is in an invalid state. Authz has invalid status " ++
        String.mk (natToChars info.status)))

/-- The authorization-status loop of `statusForOrder`: classify each
validity record by status and count expired records. -/
def countAuthzs (now : Int) : List AuthzValidity → Except BErr AuthzCounts
  | [] => Except.ok ⟨0, 0, 0, 0⟩
  | info :: rest => do
    let inc ← classifyAuthz info
    let exp : Nat := if info.expires < now then 1 else 0
    let c ← countAuthzs now rest
    pure ⟨inc.pendingAuthzs + c.pendingAuthzs, inc.validAuthzs + c.validAuthzs,
          inc.otherAuthzs + c.otherAuthzs, exp + c.expiredAuthzs⟩

/-- Model of `statusForOrder` (sa/model.go). -/
def statusForOrder (order : OrderPB) (authzValidityInfo : List AuthzValidity)
    (now : Int) : Except BErr String :=
  if order.error.isSome then Except.ok StatusInvalid
  else if order.expires < now then Except.ok StatusInvalid
  else if authzValidityInfo.length ≠ order.v2Authorizations.length then
    Except.error (internalServerError
      ("getAuthorizationStatuses returned the wrong number of authorization statuses (" ++
        String.mk (natToChars authzValidityInfo.length) ++ " vs expected " ++
        String.mk (natToChars order.v2Authorizations.length) ++ ") for order " ++
        String.mk (intToChars order.id)))
  else
    match countAuthzs now authzValidityInfo with
    | Except.error e => Except.error e
    | Except.ok c =>
      if c.otherAuthzs > 0 ∨ c.expiredAuthzs > 0 then Except.ok StatusInvalid
      else if c.pendingAuthzs > 0 then Except.ok StatusPending
      else if ¬ (order.identifiers.length = c.validAuthzs) then
        Except.error (internalServerError
          "Order has the incorrect number of valid authorizations & no pending, deactivated or invalid authorizations")
      else if order.identifiers.length = c.validAuthzs ∧ order.certificateSerial ≠ "" then
        Except.ok StatusValid
      else if order.identifiers.length = c.validAuthzs ∧ order.beganProcessing then
        Except.ok StatusProcessing
      else if order.identifiers.length = c.validAuthzs ∧ ¬ order.beganProcessing then
        Except.ok StatusReady
      else
        Except.error (internalServerError
          ("Order " ++ String.mk (intToChars order.id) ++
            " is in an invalid state. No state known for this order's authorizations"))

/-- Model of `authzModel` (sa/model.go); byte columns (`token`,
`validationError`, `validationRecord`) are opaque strings, a missing
(NULL) value being the empty/absent case the Go code tests for. -/
structure AuthzModel where
  id : Int
  identifierType : Nat
  identifierValue : String
  registrationID : Int
  certificateProfileName : Option String
  status : Nat
  expires : Int
  challenges : Nat
  attempted : Option Nat
  attemptedAt : Option Int
  token : String
  validationError : String
  validationRecord : String

/-- The fields of `core.ValidationRecord` that `rehydrateHostPort`
reads and writes. -/
structure VRecord where
  hostname : String
  port : String
  url : String
  deriving DecidableEq, Repr

/-- The result of Go `url.Parse`, restricted to the accessors
`rehydrateHostPort` uses. -/
structure GoURL where
  scheme : String
  hostname : String
  port : String
  deriving DecidableEq, Repr

/-- The external decoding functions that `modelToAuthzPB` and
`populateAttemptedFields` call: `encoding/json` unmarshalling of the stored
problem and validation-record JSON, the `grpc` package problem conversion,
`net/url.Parse`, and `base64.RawURLEncoding.EncodeToString`. The `grpc`
record conversions (`PBToValidationRecord`/`ValidationRecordToPB`), which
translate between two isomorphic record representations, are modelled as
the identity. -/
structure ExtDecoders where
  unmarshalProblem : String → Option String
  problemToPB : String → Option String
  unmarshalRecords : String → Option (List VRecord)
  urlParse : String → Option GoURL
  b64url : String → String

/-- Model of `corepb.Challenge`. -/
structure ChallengePB where
  typ : String
  status : String
  token : String
  error : Option String := none
  validationrecords : List VRecord := []
  validated : Option Int := none
  deriving DecidableEq, Repr

/-- Model of `corepb.Authorization`. -/
structure AuthorizationPB where
  id : String
  status : String
  identifier : Ident
  registrationID : Int
  expires : Int
  certificateProfileName : String
  challenges : List ChallengePB
  deriving DecidableEq, Repr

/-- Model of `rehydrateHostPort` (sa/model.go). -/
def rehydrateHostPort (ext : ExtDecoders) (vr : VRecord) : Except String VRecord :=
  if vr.url = "" then Except.error "rehydrating validation record, URL field cannot be empty"
  else
    match ext.urlParse vr.url with
    | none => Except.error "parsing validation record URL"
    | some parsedUrl => do
      let vr ←
        if vr.hostname = "" then
          if parsedUrl.hostname = "" then Except.error "hostname missing in URL"
          else pure { vr with hostname := parsedUrl.hostname }
        else pure vr
      if vr.port = "" then
        if parsedUrl.port = "" then
          if parsedUrl.scheme = "https" then pure { vr with port := "443" }
          else if parsedUrl.scheme = "http" then pure { vr with port := "80" }
          else Except.error "unknown scheme in URL"
        else if parsedUrl.port = "80" ∨ parsedUrl.port = "443" then
          pure { vr with port := parsedUrl.port }
        else Except.error "only ports 80/tcp and 443/tcp are allowed in URL"
      else pure vr

/-- The record loop of `populateAttemptedFields`: rehydrate each record
when the challenge is `http-01`, then convert (conversion modelled as the
identity). -/
def buildRecordsPB (ext : ExtDecoders) (challType : String) :
    List VRecord → Except String (List VRecord)
  | [] => Except.ok []
  | r :: rest => do
    let r' ← if challType = ChallengeTypeHTTP01 then rehydrateHostPort ext r else pure r
    let rs ← buildRecordsPB ext challType rest
    pure (r' :: rs)

/-- Model of `populateAttemptedFields` (sa/model.go). -/
def populateAttemptedFields (ext : ExtDecoders) (am : AuthzModel)
    (challenge : ChallengePB) : Except String ChallengePB := do
  let challenge ←
    if am.validationError ≠ "" then do
      let c := { challenge with status := StatusInvalid }
      match ext.unmarshalProblem am.validationError with
      | none => Except.error "failed to unmarshal authz2 model's validation error"
      | some prob =>
        match ext.problemToPB prob with
        | none => Except.error "converting problem details"
        | some pb => pure { c with error := some pb }
    else
      pure { challenge with status := StatusValid }
  match ext.unmarshalRecords am.validationRecord with
  | none => Except.error "failed to unmarshal authz2 model's validation record"
  | some records => do
    let recs ← buildRecordsPB ext challenge.typ records
    pure { challenge with validationrecords := recs }

/-- The challenge-bitmap loop of `modelToAuthzPB`, one call per `pos`; the
freshly built challenge of the Go loop is the
`{typ := uintToChallType pos, status := pending, token := ...}` literal. -/
def buildChallenges (ext : ExtDecoders) (am : AuthzModel) :
    List Nat → Except String (List ChallengePB)
  | [] => Except.ok []
  | pos :: rest =>
    if (am.challenges >>> pos) % 2 = 1 then
      match am.attempted with
      | some attempted =>
        if uintToChallType attempted = uintToChallType pos then do
          let c ← populateAttemptedFields ext am
            { typ := uintToChallType pos, status := StatusPending,
              token := ext.b64url am.token }
          let cs ← buildChallenges ext am rest
          pure ({ c with validated := am.attemptedAt } :: cs)
        else buildChallenges ext am rest
      | none => do
        let cs ← buildChallenges ext am rest
        pure (({ typ := uintToChallType pos, status := StatusPending,
                 token := ext.b64url am.token } : ChallengePB) :: cs)
    else buildChallenges ext am rest

/-- Model of `modelToAuthzPB` (sa/model.go). -/
def modelToAuthzPB (ext : ExtDecoders) (am : AuthzModel) :
    Except String AuthorizationPB :=
  match uintToIdentifierType am.identifierType with
  | none => Except.error "unrecognized identifier type encoding"
  | some identType => do
    let profile := am.certificateProfileName.getD ""
    let challenges ← buildChallenges ext am (List.range 8)
    pure { id := String.mk (intToChars am.id)
           status := (uintToStatus am.status).getD ""
           identifier := ⟨identType, am.identifierValue⟩
           registrationID := am.registrationID
           expires := am.expires
           certificateProfileName := profile
           challenges := challenges }

/-! ## Model of the `ratelimits` override export (`src/unnamed/part_001`) -/

/-- Modelled from the spec: the rate-limit `Name` enumeration and its
string forms (the file defining the enum is not part of the source
snapshot; §4.3 of the spec lists the known limits). `Name` is an integer
enum, `0` being `Unknown`. -/
def limitNameStrings : List (Nat × String) :=
  [(1, "NewRegistrationsPerIPAddress"),
   (2, "NewRegistrationsPerIPv6Range"),
   (3, "NewOrdersPerAccount"),
   (4, "FailedAuthorizationsPerDomainPerAccount"),
   (5, "CertificatesPerDomain"),
   (6, "CertificatesPerFQDNSet")]

/-- Modelled from the spec: `Name.isValid`. -/
def nameIsValid (n : Int) : Bool :=
  limitNameStrings.any (fun p => Int.ofNat p.1 == n)

/-- Modelled from the spec: `Name.String`, the limit's name. -/
def nameString (n : Int) : String :=
  ((limitNameStrings.find? (fun p => Int.ofNat p.1 == n)).map (fun p => p.2)).getD ""

/-- Model of `config.Duration` / `time.Duration`: nanoseconds. -/
def GoDuration := Int

/-- Model of `ratelimits.Limit`, restricted to the fields `DumpOverrides`
reads (the internal precomputed fields carry no information of their
own). -/
structure Limit where
  Burst : Int
  Count : Int
  Period : Int
  Name : Int
  Comment : String
  deriving DecidableEq, Repr

/-- Model of `parseOverrideNameEnumId` (`src/unnamed/part_001`). -/
def parseOverrideNameEnumId (key : String) : Except String (Int × String) :=
  if ¬ containsCharL ':' key.data then Except.error "invalid override, must be formatted name:id"
  else
    match splitN2Char ':' key.data with
    | [nameStr, idStr] =>
      match goAtoi nameStr with
      | none => Except.error "invalid name in override limit, must be an integer"
      | some nameInt =>
        if ¬ nameIsValid nameInt then Except.error "invalid name in override limit"
        else if idStr = [] then Except.error "empty id in override, must be formatted name:id"
        else Except.ok (nameInt, String.mk idStr)
    | _ => Except.error "invalid override, must be formatted name:id"

/-- The fractional-digit loop of Go `time.Duration.String`'s `fmtFrac`:
append up to `prec` digits after a decimal point, omitting trailing zeros,
least-significant first; returns the remaining value. -/
def fmtFrac : Nat → Nat → Bool → List Char → List Char × Nat
  | v, 0, printed, acc => (if printed then '.' :: acc else acc, v)
  | v, p + 1, printed, acc =>
    let digit := v % 10
    let printed' := printed ∨ digit ≠ 0
    fmtFrac (v / 10) p printed' (if printed' then decDigitChar digit :: acc else acc)

/-- Model of Go `time.Duration.String` for durations of at least one
second: the `h`/`m`/`s` form with a fractional second from `fmtFrac`.
(Sub-second durations render with `ns`, `µs` or `ms` units in Go; the
model returns the second-based form for all positive values and `"0s"`
for zero, which suffices for the rate-limit periods compared here.) -/
def goDurationString (d : Int) : String :=
  if d = 0 then "0s"
  else
    let u := d.natAbs
    let (frac, u1) := fmtFrac u 9 false []
    let secs := natToChars (u1 % 60) ++ frac ++ ['s']
    let u2 := u1 / 60
    let withMin :=
      if u2 > 0 then natToChars (u2 % 60) ++ 'm' :: secs else secs
    let u3 := u2 / 60
    let withHour :=
      if u2 > 0 ∧ u3 > 0 then natToChars u3 ++ 'h' :: withMin else withMin
    if d < 0 then String.mk ('-' :: withHour) else String.mk withHour

/-- The row type of `DumpOverrides` (`src/unnamed/part_001`). -/
structure ORow where
  name : String
  id : String
  count : Int
  burst : Int
  period : String
  comment : String
  deriving DecidableEq, Repr

/-- Byte-wise lexicographic comparison on character lists. -/
def charListLess : List Char → List Char → Bool
  | [], [] => false
  | [], _ :: _ => true
  | _ :: _, [] => false
  | a :: as, b :: bs =>
    if a.toNat < b.toNat then true
    else if b.toNat < a.toNat then false
    else charListLess as bs

/-- Go string comparison (`<`), byte-wise lexicographic; on the ASCII
strings involved this is character-wise comparison. -/
def goStrLess (a b : String) : Bool := charListLess a.data b.data

/-- The `sort.Slice` comparator of `DumpOverrides`, verbatim from the
source: name ascending, count descending, burst descending, period
(a `Duration.String()` rendering) ascending, comment ascending, id
ascending. -/
def rowLess (ri rj : ORow) : Bool :=
  if ri.name ≠ rj.name then goStrLess ri.name rj.name
  else if ri.count ≠ rj.count then rj.count < ri.count
  else if ri.burst ≠ rj.burst then rj.burst < ri.burst
  else if ri.period ≠ rj.period then goStrLess ri.period rj.period
  else if ri.comment ≠ rj.comment then goStrLess ri.comment rj.comment
  else goStrLess ri.id rj.id

/-- Insertion into a list sorted by `rowLess`. With ties under `rowLess`
being fully identical rows, the result of `sort.Slice` (an unstable sort)
is exactly this insertion sort's result. -/
def insertRow (r : ORow) : List ORow → List ORow
  | [] => [r]
  | x :: xs => if rowLess x r then x :: insertRow r xs else r :: x :: xs

def sortRows (rows : List ORow) : List ORow := rows.foldr insertRow []

/-- The row-building loop of `DumpOverrides`. -/
def buildORows : List (String × Limit) → Except String (List ORow)
  | [] => Except.ok []
  | (bucketKey, limit) :: rest => do
    let (name, id) ← parseOverrideNameEnumId bucketKey
    let rs ← buildORows rest
    pure ({ name := nameString name
            id := id
            count := limit.Count
            burst := limit.Burst
            period := goDurationString limit.Period
            comment := limit.Comment } :: rs)

/-- Model of `DumpOverrides` (`src/unnamed/part_001`) up to the CSV
serialization: the sorted rows that are written, one CSV row each, after
the header. File I/O and CSV quoting are not modelled. -/
def dumpOverridesRows (overrides : List (String × Limit)) : Except String (List ORow) := do
  let rows ← buildORows overrides
  pure (sortRows rows)

/-! ## Concrete fixtures used by the claims -/

/-- A freshly constructed authority (`policy.New`): nil blocklists, DNS and
IP identifier types enabled. -/
def paInit : AuthorityImpl :=
  { domainBlocklist := none
    fqdnBlocklist := none
    wildcardFqdnBlocklist := none
    ipPrefixBlocklist := []
    enabledChallenges := [ChallengeTypeHTTP01, ChallengeTypeDNS01, ChallengeTypeTLSALPN01]
    enabledIdentifiers := [TypeDNS, TypeIP] }

/-- A policy whose `ExactBlockedNames` contains `a.b.c` (claim C5). -/
def policyC5 : BlockedIdentsPolicy :=
  { ExactBlockedNames := ["a.b.c"]
    HighRiskBlockedNames := ["w.x"]
    AdminBlockedNames := []
    AdminBlockedPrefixes := [] }

def paC5 : AuthorityImpl := (processIdentPolicy paInit policyC5).1

/-- A policy whose `HighRiskBlockedNames` contains `b.c` (claim C6). -/
def policyC6 : BlockedIdentsPolicy :=
  { ExactBlockedNames := ["x.y"]
    HighRiskBlockedNames := ["b.c"]
    AdminBlockedNames := []
    AdminBlockedPrefixes := [] }

def paC6 : AuthorityImpl := (processIdentPolicy paInit policyC6).1

/-- `errPolicyForbidden` surfaced through `combineSubErrors` for a single
rejected identifier value. -/
def policyForbiddenFor (v : String) : BErr :=
  rejectedIdentifierError ("Cannot issue for " ++ goQuote v ++ ": " ++ errPolicyForbidden.detail)

/-! ## Claim C5 -/

/-- C5: after loading a policy whose `ExactBlockedNames` contains `a.b.c`,
`WillingToIssue` rejects the identifier `a.b.c` and the wildcard identifier
`*.b.c` as policy-forbidden, but does not reject `b.c`, `z.a.b.c`, or the
sibling `d.b.c` (the load itself succeeding). Stated for every model of the
IDN normality check, which these names never reach. -/
theorem claim_C5 (idnaOk : List Char → Bool) :
    (processIdentPolicy paInit policyC5).2 = none ∧
    WillingToIssue idnaOk paC5 [⟨TypeDNS, "a.b.c"⟩] = some (policyForbiddenFor "a.b.c") ∧
    WillingToIssue idnaOk paC5 [⟨TypeDNS, "*.b.c"⟩] = some (policyForbiddenFor "*.b.c") ∧
    WillingToIssue idnaOk paC5 [⟨TypeDNS, "b.c"⟩] = none ∧
    WillingToIssue idnaOk paC5 [⟨TypeDNS, "z.a.b.c"⟩] = none ∧
    WillingToIssue idnaOk paC5 [⟨TypeDNS, "d.b.c"⟩] = none :=
  ⟨rfl, rfl, rfl, rfl, rfl, rfl⟩

/-! ## Claim C7 -/

/-- C7: `ChallengeTypesFor` returns exactly `[dns-01]` for a DNS identifier
beginning with `*.`, exactly `[http-01, dns-01, tls-alpn-01]` for every
other DNS identifier, exactly `[http-01, tls-alpn-01]` for every IP
identifier, and an error for any other identifier type. -/
theorem claim_C7 (ident : Ident) :
    (ident.typ = TypeDNS → startsWithL ['*', '.'] ident.value.data = true →
      ChallengeTypesFor ident = Except.ok [ChallengeTypeDNS01]) ∧
    (ident.typ = TypeDNS → startsWithL ['*', '.'] ident.value.data = false →
      ChallengeTypesFor ident =
        Except.ok [ChallengeTypeHTTP01, ChallengeTypeDNS01, ChallengeTypeTLSALPN01]) ∧
    (ident.typ = TypeIP →
      ChallengeTypesFor ident = Except.ok [ChallengeTypeHTTP01, ChallengeTypeTLSALPN01]) ∧
    (ident.typ ≠ TypeDNS → ident.typ ≠ TypeIP →
      ChallengeTypesFor ident =
        Except.error (plainError ("unrecognized identifier type " ++ goQuote ident.typ))) := by
  refine ⟨?_, ?_, ?_, ?_⟩
  · intro h1 h2
    simp [ChallengeTypesFor, h1, h2]
  · intro h1 h2
    simp [ChallengeTypesFor, h1, h2]
  · intro h1
    simp only [ChallengeTypesFor, h1]
    have : TypeIP ≠ TypeDNS := by decide
    simp [this]
  · intro h1 h2
    simp [ChallengeTypesFor, h1, h2]

theorem claim_C7_witness :
    ChallengeTypesFor ⟨TypeDNS, "*.b.c"⟩ = Except.ok [ChallengeTypeDNS01] ∧
    ChallengeTypesFor ⟨TypeDNS, "a.b.c"⟩ =
      Except.ok [ChallengeTypeHTTP01, ChallengeTypeDNS01, ChallengeTypeTLSALPN01] ∧
    ChallengeTypesFor ⟨TypeIP, "192.0.2.1"⟩ =
      Except.ok [ChallengeTypeHTTP01, ChallengeTypeTLSALPN01] ∧
    ChallengeTypesFor ⟨"email", "x@y.c"⟩ =
      Except.error (plainError ("unrecognized identifier type " ++ goQuote "email")) :=
  ⟨(claim_C7 ⟨TypeDNS, "*.b.c"⟩).1 rfl (by decide),
   (claim_C7 ⟨TypeDNS, "a.b.c"⟩).2.1 rfl (by decide),
   (claim_C7 ⟨TypeIP, "192.0.2.1"⟩).2.2.1 rfl,
   (claim_C7 ⟨"email", "x@y.c"⟩).2.2.2 (by decide) (by decide)⟩

/-! ## Claim C3

The `sort.Slice` comparator of `DumpOverrides` compares the `period` column
as a string (the `Duration.String()` rendering), although both the
function's documentation ("Period (ascending)", "shorter durations first")
and the specification ask for ascending periods. Two overrides differing
only in period, 10h and 2h, expose the bug: `"10h0m0s" < "2h0m0s"`
lexicographically, so the 10-hour row is exported first. -/

def overridesC3 : List (String × Limit) :=
  [("6:a", { Burst := 1, Count := 1, Period := 36000000000000, Name := 6, Comment := "" }),
   ("6:b", { Burst := 1, Count := 1, Period := 7200000000000, Name := 6, Comment := "" })]

/-- C3 (failing input): on two overrides of the same name, count and burst
whose periods are 10h and 2h, `DumpOverrides` writes the 10-hour row before
the 2-hour row, because the comparator orders the `Duration.String()`
renderings (`"10h0m0s" < "2h0m0s"`) instead of the durations; the claimed
period-ascending order would put the 2-hour row first. -/
theorem claim_C3_bug :
    goDurationString 36000000000000 = "10h0m0s" ∧
    goDurationString 7200000000000 = "2h0m0s" ∧
    (36000000000000 : Int) > 7200000000000 ∧
    dumpOverridesRows overridesC3 = Except.ok
      [{ name := "CertificatesPerFQDNSet", id := "a", count := 1, burst := 1,
         period := "10h0m0s", comment := "" },
       { name := "CertificatesPerFQDNSet", id := "b", count := 1, burst := 1,
         period := "2h0m0s", comment := "" }] :=
  ⟨rfl, rfl, by decide, rfl⟩

/-! ## Claim C2 -/

def orderC2 : OrderPB :=
  { id := 1, error := none, expires := 100, v2Authorizations := [11, 12]
    identifiers := [⟨TypeDNS, "a.com"⟩], certificateSerial := "", beganProcessing := false }

def authzInfoC2 : List AuthzValidity :=
  [⟨0, "a.com", 0, 200⟩, ⟨0, "b.com", 0, 200⟩]

/-- C2 (counterexample): an order with two associated authorizations but
one identifier, both authorizations pending, is reported `pending` by
`statusForOrder`, not a fatal internal error: the claimed
authorization-vs-identifier count check does not exist; the code only
compares the validity records against the order's authorization IDs. -/
theorem claim_C2_counterexample :
    authzInfoC2.length ≠ orderC2.identifiers.length ∧
    authzInfoC2.length = orderC2.v2Authorizations.length ∧
    statusForOrder orderC2 authzInfoC2 10 = Except.ok StatusPending :=
  ⟨by decide, by decide, rfl⟩

/-- C2 (amended): for every order with no error and an unexpired expiry,
when the number of authorization validity records differs from the number
of the order's authorization IDs, `statusForOrder` returns a fatal internal
error regardless of the statuses of the records it does have. -/
theorem claim_C2 (order : OrderPB) (infos : List AuthzValidity) (now : Int)
    (h1 : order.error = none) (h2 : ¬ order.expires < now)
    (h3 : infos.length ≠ order.v2Authorizations.length) :
    statusForOrder order infos now = Except.error (internalServerError
      ("getAuthorizationStatuses returned the wrong number of authorization statuses (" ++
        String.mk (natToChars infos.length) ++ " vs expected " ++
        String.mk (natToChars order.v2Authorizations.length) ++ ") for order " ++
        String.mk (intToChars order.id))) := by
  simp [statusForOrder, h1, h2, h3]

theorem claim_C2_witness :
    statusForOrder { orderC2 with v2Authorizations := [11] } authzInfoC2 10 =
      Except.error (internalServerError
        ("getAuthorizationStatuses returned the wrong number of authorization statuses (" ++
          String.mk (natToChars authzInfoC2.length) ++ " vs expected " ++
          String.mk (natToChars [(11 : Int)].length) ++ ") for order " ++
          String.mk (intToChars (1 : Int)))) :=
  claim_C2 { orderC2 with v2Authorizations := [11] } authzInfoC2 10 rfl (by decide) (by decide)

/-! ## Claim C1

Domain validation is not invariant under lowercasing: `validNonWildcardDomain`
accepts uppercase bytes in its character scan (`isDNSCharacter`) but the
per-label regular expression `^[a-z0-9-]+$` rejects them, so an uppercase
domain fails while its lowercased form may succeed. What does hold is that
every accepted domain is already lowercase. -/

lemma splitChar_ne_nil (sep : Char) (l : List Char) : splitChar sep l ≠ [] := by
  cases l with
  | nil => simp [splitChar]
  | cons c rest =>
    simp only [splitChar]
    split <;> simp

lemma mem_splitChar (sep : Char) (l : List Char) (c : Char) (h : c ∈ l) :
    c = sep ∨ ∃ part ∈ splitChar sep l, c ∈ part := by
  induction l with
  | nil => cases h
  | cons x rest ih =>
    rcases hr : splitChar sep rest with _ | ⟨p0, ps⟩
    · exact absurd hr (splitChar_ne_nil sep rest)
    rcases List.mem_cons.mp h with hx | hrest
    · subst hx
      by_cases hsep : (c == sep) = true
      · exact Or.inl (by simpa using hsep)
      · refine Or.inr ⟨c :: p0, ?_, List.mem_cons_self ..⟩
        simp only [splitChar, hsep, if_false, hr, Bool.false_eq_true, if_neg]
        simp
    · rcases ih hrest with hc | ⟨part, hpart, hcpart⟩
      · exact Or.inl hc
      · refine Or.inr ?_
        rw [hr] at hpart
        simp only [splitChar, hr]
        by_cases hsep : (x == sep) = true
        · simp only [hsep, if_true, if_pos]
          exact ⟨part, List.mem_cons_of_mem _ hpart, hcpart⟩
        · simp only [hsep, Bool.false_eq_true, if_neg, List.headI, List.tail]
          rcases List.mem_cons.mp hpart with h0 | hps
          · subst h0
            exact ⟨x :: part, List.mem_cons_self .., List.mem_cons_of_mem _ hcpart⟩
          · exact ⟨part, List.mem_cons_of_mem _ hps, hcpart⟩

lemma lowerChar_eq_self {c : Char}
    (h : inRange 'a' 'z' c ∨ inRange '0' '9' c ∨ c = '.' ∨ c = '-' ∨ c = '*') :
    lowerChar c = c := by
  have hne : inRange 'A' 'Z' c = false := by
    have ha : 'a'.toNat = 97 := rfl
    have hz : 'z'.toNat = 122 := rfl
    have hA : 'A'.toNat = 65 := rfl
    have hZ : 'Z'.toNat = 90 := rfl
    have h0 : '0'.toNat = 48 := rfl
    have h9 : '9'.toNat = 57 := rfl
    simp only [inRange, decide_eq_true_eq] at h ⊢
    rcases h with h | h | h | h | h
    · simp only [decide_eq_false_iff_not]
      omega
    · simp only [decide_eq_false_iff_not]
      omega
    · subst h; decide
    · subst h; decide
    · subst h; decide
  simp [lowerChar, hne]

lemma dnsLabelCharMatch_lower {l : List Char} (h : dnsLabelCharMatch l = true) :
    ∀ c ∈ l, lowerChar c = c := by
  intro c hc
  simp only [dnsLabelCharMatch, Bool.and_eq_true, List.all_eq_true] at h
  have := h.2 c hc
  simp only [decide_eq_true_eq] at this
  exact lowerChar_eq_self (by tauto)

lemma checkLabel_match {idnaOk : List Char → Bool} {l : List Char}
    (h : checkLabel idnaOk l = none) : dnsLabelCharMatch l = true := by
  unfold checkLabel at h
  split at h
  · exact absurd h (by simp)
  · split at h
    · exact absurd h (by simp)
    · split at h
      · exact absurd h (by simp)
      · rename_i h1 h2 h3
        simpa using h3

lemma checkLabels_all {idnaOk : List Char → Bool} {ls : List (List Char)}
    (h : checkLabels idnaOk ls = none) : ∀ l ∈ ls, checkLabel idnaOk l = none := by
  induction ls with
  | nil => intro l hl; cases hl
  | cons x rest ih =>
    intro l hl
    unfold checkLabels at h
    rcases hx : checkLabel idnaOk x with _ | e
    · rw [hx] at h
      rcases List.mem_cons.mp hl with h1 | h2
      · rwa [h1]
      · exact ih h l h2
    · rw [hx] at h
      cases h

lemma validNonWildcardDomain_labels {idnaOk : List Char → Bool} {s : String}
    (h : validNonWildcardDomain idnaOk s = none) :
    checkLabels idnaOk (splitChar '.' s.data) = none := by
  unfold validNonWildcardDomain at h
  split at h
  · simp at h
  split at h
  · simp at h
  split at h
  · simp at h
  split at h
  · simp at h
  split at h
  · simp at h
  split at h
  · simp at h
  split at h
  · simp at h
  split at h
  · simp at h
  split at h
  · simp at h
  · rename_i heq
    exact heq

lemma validNonWildcardDomain_lower {idnaOk : List Char → Bool} {s : String}
    (h : validNonWildcardDomain idnaOk s = none) :
    ∀ c ∈ s.data, lowerChar c = c := by
  intro c hc
  rcases mem_splitChar '.' s.data c hc with hdot | ⟨part, hpart, hcpart⟩
  · subst hdot; decide
  · have hlabels := validNonWildcardDomain_labels h
    have hlabel := checkLabels_all hlabels part hpart
    exact dnsLabelCharMatch_lower (checkLabel_match hlabel) c hcpart

lemma map_lowerChar_eq_self {l : List Char} (h : ∀ c ∈ l, lowerChar c = c) :
    l.map lowerChar = l := by
  induction l with
  | nil => rfl
  | cons x rest ih =>
    simp only [List.map_cons]
    rw [h x (List.mem_cons_self ..), ih (fun c hc => h c (List.mem_cons_of_mem _ hc))]

/-- C1 (amended): every domain accepted by `ValidDomain` is its own
lowercasing, so `ValidDomain (lower d) = ValidDomain d` holds whenever
`ValidDomain d` succeeds. (The unconditional equality of the claim is
false: see the counterexample.) -/
theorem claim_C1 (idnaOk : List Char → Bool) (d : String)
    (h : ValidDomain idnaOk d = none) :
    goToLower d = d ∧ ValidDomain idnaOk (goToLower d) = ValidDomain idnaOk d := by
  have hfix : ∀ c ∈ d.data, lowerChar c = c := by
    unfold ValidDomain at h
    split at h
    · exact validNonWildcardDomain_lower h
    split at h
    · simp at h
    split at h
    · simp at h
    rename_i hone htwo hpre
    rw [Bool.not_eq_true, Bool.not_eq_false] at hpre
    have hd : d.data = '*' :: '.' :: d.data.drop 2 := by
      have hp : ['*', '.'] <+: d.data := by
        rw [← List.isPrefixOf_iff_prefix]
        exact hpre
      rcases hp with ⟨t, ht⟩
      rw [← ht]
      simp
    have hbase : goTrimPre ['*', '.'] d.data = d.data.drop 2 := by
      unfold goTrimPre
      rw [hpre]
      simp
    split at h
    · simp at h
    split at h
    · simp at h
    have hrest : ∀ c ∈ d.data.drop 2, lowerChar c = c := by
      have hvl := validNonWildcardDomain_lower h
      intro c hc
      exact hvl c (by rw [hbase]; simpa using hc)
    intro c hc
    rw [hd] at hc
    rcases List.mem_cons.mp hc with h1 | hc
    · subst h1; decide
    · rcases List.mem_cons.mp hc with h2 | hc
      · subst h2; decide
      · exact hrest c hc
  have hlow : goToLower d = d := by
    unfold goToLower
    cases d with
    | mk data =>
      simp only
      rw [map_lowerChar_eq_self hfix]
  exact ⟨hlow, by rw [hlow]⟩

/-- C1 (counterexample): `ValidDomain` applied to the lowercased form of
`EXAMPLE.COM` succeeds, while applied to `EXAMPLE.COM` itself it fails —
the claimed invariance under lowercasing does not hold. -/
theorem claim_C1_counterexample :
    ValidDomain (fun _ => true) (goToLower "EXAMPLE.COM") ≠
      ValidDomain (fun _ => true) "EXAMPLE.COM" ∧
    ValidDomain (fun _ => true) (goToLower "EXAMPLE.COM") = none ∧
    ValidDomain (fun _ => true) "EXAMPLE.COM" = some errInvalidDNSCharacter := by
  refine ⟨?_, by decide, by decide⟩
  decide

theorem claim_C1_witness :
    goToLower "example.com" = "example.com" ∧
    ValidDomain (fun _ => true) (goToLower "example.com") =
      ValidDomain (fun _ => true) "example.com" :=
  claim_C1 (fun _ => true) "example.com" (by decide)

/-! ## Claim C6 -/

lemma combineSubErrors_isSome {l : List SubErr} (h : l ≠ []) :
    (combineSubErrors l).isSome = true := by
  cases l with
  | nil => exact absurd rfl h
  | cons s rest => cases rest <;> simp [combineSubErrors]

lemma checkDomainSuffixes_hit (bl : GoStrSet) (pre suffix : List (List Char))
    (hs : suffix ≠ [])
    (hmem : bl.lookup (String.mk (joinChar '.' suffix)) = true) :
    checkDomainSuffixes bl (pre ++ suffix) = some errPolicyForbidden := by
  induction pre with
  | nil =>
    cases suffix with
    | nil => exact absurd rfl hs
    | cons s0 rest => simp [checkDomainSuffixes, hmem]
  | cons p ps ih =>
    have hne : ps ++ suffix ≠ [] := by
      cases suffix with
      | nil => exact absurd rfl hs
      | cons s0 rest => simp
    rw [List.cons_append]
    unfold checkDomainSuffixes
    split
    · rfl
    · exact ih

/-- C6: after loading a policy whose `HighRiskBlockedNames` contains `b.c`,
`WillingToIssue` rejects every DNS identifier whose label-wise suffix is
`b.c` — in particular `a.b.c`, `b.c` itself and the wildcard `*.a.b.c` (see
the witness) — while `b.cd`, not a label-wise suffix match, is unaffected. -/
theorem claim_C6 :
    (∀ (idnaOk : List Char → Bool) (v : String),
      [['b'], ['c']] <:+ splitChar '.' v.data →
      (WillingToIssue idnaOk paC6 [⟨TypeDNS, v⟩]).isSome = true) ∧
    (∀ idnaOk : List Char → Bool,
      WillingToIssue idnaOk paC6 [⟨TypeDNS, "b.cd"⟩] = none) := by
  constructor
  · intro idnaOk v hsuf
    have hcb : checkBlocklists paC6 ⟨TypeDNS, v⟩ = some errPolicyForbidden := by
      obtain ⟨pre, hpre⟩ := hsuf
      have hhit := checkDomainSuffixes_hit paC6.domainBlocklist pre [['b'], ['c']]
        (by simp) (by decide)
      rw [hpre] at hhit
      simp only [checkBlocklists]
      rw [if_neg (by decide), if_pos trivial, hhit]
    have hsub : willingToIssueSubErrors paC6 ⟨TypeDNS, v⟩ ≠ [] := by
      simp only [willingToIssueSubErrors]
      rw [if_neg (by decide)]
      split
      · split
        · simp
        · rw [hcb]
          simp
      · rw [hcb]
        simp
    unfold WillingToIssue
    rcases hW : WellFormedIdentifiers idnaOk [⟨TypeDNS, v⟩] with _ | err
    · simp only [List.foldr_cons, List.foldr_nil, List.append_nil]
      exact combineSubErrors_isSome hsub
    · simp
  · intro idnaOk
    rfl

theorem claim_C6_witness :
    (WillingToIssue (fun _ => true) paC6 [⟨TypeDNS, "a.b.c"⟩]).isSome = true ∧
    (WillingToIssue (fun _ => true) paC6 [⟨TypeDNS, "b.c"⟩]).isSome = true ∧
    (WillingToIssue (fun _ => true) paC6 [⟨TypeDNS, "*.a.b.c"⟩]).isSome = true :=
  ⟨claim_C6.1 (fun _ => true) "a.b.c" ⟨[['a']], by decide⟩,
   claim_C6.1 (fun _ => true) "b.c" ⟨[], by decide⟩,
   claim_C6.1 (fun _ => true) "*.a.b.c" ⟨[['*'], ['a']], by decide⟩⟩

/-! ## Claim C4 -/

/-- The ordered case analysis of §4.5, written from the specification's
words (the specification-side definition of the refinement claim C4; the
code-side definition is `statusForOrder`): order error → invalid; expired
order → invalid; any invalid/deactivated/revoked/expired authorization →
invalid; any pending authorization → pending; all valid with a non-empty
certificate serial → valid; all valid and began processing → processing;
all valid otherwise → ready; every remaining case → internal error. -/
def orderStatusSpec (order : OrderPB) (infos : List AuthzValidity) (now : Int) :
    Except BErr String :=
  if order.error.isSome then Except.ok StatusInvalid
  else if order.expires < now then Except.ok StatusInvalid
  else if infos.any (fun i => uintToStatus i.status = some StatusInvalid ∨
      uintToStatus i.status = some StatusDeactivated ∨
      uintToStatus i.status = some StatusRevoked ∨ i.expires < now) then
    Except.ok StatusInvalid
  else if infos.any (fun i => uintToStatus i.status = some StatusPending) then
    Except.ok StatusPending
  else if infos.all (fun i => uintToStatus i.status = some StatusValid) then
    if order.certificateSerial ≠ "" then Except.ok StatusValid
    else if order.beganProcessing then Except.ok StatusProcessing
    else Except.ok StatusReady
  else
    Except.error (internalServerError "no case of the order-status analysis applies")

lemma uintToStatus_pending {n : Nat} (h : n < 5) :
    uintToStatus n = some StatusPending ↔ n = 0 := by
  have : n = 0 ∨ n = 1 ∨ n = 2 ∨ n = 3 ∨ n = 4 := by omega
  rcases this with h | h | h | h | h <;> subst h <;>
    simp [uintToStatus, StatusPending, StatusValid, StatusInvalid, StatusDeactivated,
      StatusRevoked]

lemma uintToStatus_valid {n : Nat} (h : n < 5) :
    uintToStatus n = some StatusValid ↔ n = 1 := by
  have : n = 0 ∨ n = 1 ∨ n = 2 ∨ n = 3 ∨ n = 4 := by omega
  rcases this with h | h | h | h | h <;> subst h <;>
    simp [uintToStatus, StatusPending, StatusValid, StatusInvalid, StatusDeactivated,
      StatusRevoked]

lemma uintToStatus_other {n : Nat} (h : n < 5) :
    (uintToStatus n = some StatusInvalid ∨ uintToStatus n = some StatusDeactivated ∨
      uintToStatus n = some StatusRevoked) ↔ (n == 2 || n == 3 || n == 4) = true := by
  have : n = 0 ∨ n = 1 ∨ n = 2 ∨ n = 3 ∨ n = 4 := by omega
  rcases this with h | h | h | h | h <;> subst h <;>
    simp [uintToStatus, StatusPending, StatusValid, StatusInvalid, StatusDeactivated,
      StatusRevoked]

lemma countAuthzs_eq (now : Int) (infos : List AuthzValidity)
    (h : ∀ i ∈ infos, i.status < 5) :
    countAuthzs now infos = Except.ok
      { pendingAuthzs := infos.countP (fun i => i.status == 0)
        validAuthzs := infos.countP (fun i => i.status == 1)
        otherAuthzs := infos.countP (fun i => i.status == 2 || i.status == 3 || i.status == 4)
        expiredAuthzs := infos.countP (fun i => decide (i.expires < now)) } := by
  induction infos with
  | nil => rfl
  | cons i rest ih =>
    have hi : i.status < 5 := h i (List.mem_cons_self ..)
    have hr := ih (fun j hj => h j (List.mem_cons_of_mem _ hj))
    have h5 : i.status = 0 ∨ i.status = 1 ∨ i.status = 2 ∨ i.status = 3 ∨ i.status = 4 := by
      omega
    rcases h5 with h0 | h0 | h0 | h0 | h0 <;>
      simp [countAuthzs, classifyAuthz, h0, uintToStatus, StatusPending, StatusValid,
        StatusInvalid, StatusDeactivated, StatusRevoked, hr, bind, Except.bind, pure,
        Except.pure, List.countP_cons, Nat.add_comm]

/-- C4: under the intended preconditions — one validity record per
authorization ID, one authorization per order identifier, and genuine
authorization status bytes — `statusForOrder` is exactly the ordered case
analysis of §4.5 (`orderStatusSpec`); being a function of
`(order, validity records, now)`, it is pure. -/
theorem claim_C4 (order : OrderPB) (infos : List AuthzValidity) (now : Int)
    (hlen1 : infos.length = order.v2Authorizations.length)
    (hlen2 : infos.length = order.identifiers.length)
    (hstat : ∀ i ∈ infos, i.status < 5) :
    statusForOrder order infos now = orderStatusSpec order infos now := by
  unfold statusForOrder orderStatusSpec
  by_cases herr : order.error.isSome = true
  · rw [if_pos herr, if_pos herr]
  rw [if_neg herr, if_neg herr]
  by_cases hexp : order.expires < now
  · rw [if_pos hexp, if_pos hexp]
  rw [if_neg hexp, if_neg hexp, if_neg (by omega : ¬ infos.length ≠ order.v2Authorizations.length),
    countAuthzs_eq now infos hstat]
  simp only
  by_cases hinv : (0 < infos.countP (fun i => i.status == 2 || i.status == 3 || i.status == 4)
      ∨ 0 < infos.countP (fun i => decide (i.expires < now)))
  · have hA : (infos.any fun i => decide (uintToStatus i.status = some StatusInvalid ∨
        uintToStatus i.status = some StatusDeactivated ∨
        uintToStatus i.status = some StatusRevoked ∨ i.expires < now)) = true := by
      rw [List.any_eq_true]
      rcases hinv with ho | he
      · obtain ⟨i, hmem, hp⟩ := List.countP_pos.mp ho
        have h3 := (uintToStatus_other (hstat i hmem)).mpr hp
        refine ⟨i, hmem, ?_⟩
        simp only [decide_eq_true_eq]
        tauto
      · obtain ⟨i, hmem, hp⟩ := List.countP_pos.mp he
        simp only [decide_eq_true_eq] at hp
        refine ⟨i, hmem, ?_⟩
        simp only [decide_eq_true_eq]
        tauto
    rw [if_pos hinv, hA]
    simp
  · have hA : (infos.any fun i => decide (uintToStatus i.status = some StatusInvalid ∨
        uintToStatus i.status = some StatusDeactivated ∨
        uintToStatus i.status = some StatusRevoked ∨ i.expires < now)) = false := by
      rw [List.any_eq_false]
      intro i hmem
      simp only [decide_eq_true_eq]
      rintro (hp | hp | hp | hp)
      · exact hinv (Or.inl (List.countP_pos.mpr ⟨i, hmem,
          (uintToStatus_other (hstat i hmem)).mp (Or.inl hp)⟩))
      · exact hinv (Or.inl (List.countP_pos.mpr ⟨i, hmem,
          (uintToStatus_other (hstat i hmem)).mp (Or.inr (Or.inl hp))⟩))
      · exact hinv (Or.inl (List.countP_pos.mpr ⟨i, hmem,
          (uintToStatus_other (hstat i hmem)).mp (Or.inr (Or.inr hp))⟩))
      · exact hinv (Or.inr (List.countP_pos.mpr ⟨i, hmem, by simpa using hp⟩))
    rw [if_neg hinv, hA]
    simp only [Bool.false_eq_true, if_false]
    by_cases hpend : 0 < infos.countP (fun i => i.status == 0)
    · have hP : (infos.any fun i => decide (uintToStatus i.status = some StatusPending)) = true := by
        rw [List.any_eq_true]
        obtain ⟨i, hmem, hp⟩ := List.countP_pos.mp hpend
        exact ⟨i, hmem, by simp [(uintToStatus_pending (hstat i hmem)).mpr (by simpa using hp)]⟩
      rw [if_pos hpend, hP]
      simp
    · have hP : (infos.any fun i => decide (uintToStatus i.status = some StatusPending)) = false := by
        rw [List.any_eq_false]
        intro i hmem
        simp only [decide_eq_true_eq]
        intro hp
        exact hpend (List.countP_pos.mpr ⟨i, hmem,
          by simpa using (uintToStatus_pending (hstat i hmem)).mp hp⟩)
      rw [if_neg hpend, hP]
      simp only [Bool.false_eq_true, if_false]
      -- Every remaining status is valid.
      have hall : ∀ i ∈ infos, i.status = 1 := by
        intro i hmem
        have h5 := hstat i hmem
        by_contra hne
        have : i.status = 0 ∨ i.status = 2 ∨ i.status = 3 ∨ i.status = 4 := by omega
        rcases this with h0 | h0 | h0 | h0
        · exact hpend (List.countP_pos.mpr ⟨i, hmem, by simp [h0]⟩)
        · exact hinv (Or.inl (List.countP_pos.mpr ⟨i, hmem, by simp [h0]⟩))
        · exact hinv (Or.inl (List.countP_pos.mpr ⟨i, hmem, by simp [h0]⟩))
        · exact hinv (Or.inl (List.countP_pos.mpr ⟨i, hmem, by simp [h0]⟩))
      have hV : (infos.all fun i => decide (uintToStatus i.status = some StatusValid)) = true := by
        rw [List.all_eq_true]
        intro i hmem
        exact decide_eq_true ((uintToStatus_valid (hstat i hmem)).mpr (hall i hmem))
      rw [hV]
      simp only [if_true]
      have hcount : infos.countP (fun i => i.status == 1) = infos.length := by
        rw [List.countP_eq_length]
        intro i hmem
        simp [hall i hmem]
      have hfull : order.identifiers.length = infos.countP (fun i => i.status == 1) := by
        omega
      rw [if_neg (not_not_intro hfull)]
      by_cases hser : order.certificateSerial ≠ ""
      · rw [if_pos ⟨hfull, hser⟩, if_pos hser]
      rw [if_neg (by tauto), if_neg hser]
      by_cases hbeg : order.beganProcessing = true
      · rw [if_pos ⟨hfull, hbeg⟩, if_pos hbeg]
      rw [if_neg (by tauto), if_neg hbeg, if_pos ⟨hfull, hbeg⟩]

theorem claim_C4_witness :
    statusForOrder
      { id := 9, error := none, expires := 100, v2Authorizations := [4]
        identifiers := [⟨TypeDNS, "a.com"⟩], certificateSerial := "01ab"
        beganProcessing := true }
      [⟨0, "a.com", 1, 150⟩] 10 =
    orderStatusSpec
      { id := 9, error := none, expires := 100, v2Authorizations := [4]
        identifiers := [⟨TypeDNS, "a.com"⟩], certificateSerial := "01ab"
        beganProcessing := true }
      [⟨0, "a.com", 1, 150⟩] 10 ∧
    statusForOrder
      { id := 9, error := none, expires := 100, v2Authorizations := [4]
        identifiers := [⟨TypeDNS, "a.com"⟩], certificateSerial := "01ab"
        beganProcessing := true }
      [⟨0, "a.com", 1, 150⟩] 10 = Except.ok StatusValid :=
  ⟨claim_C4 _ _ 10 (by decide) (by decide) (by decide), by decide⟩

/-! ## Claim C9 -/

lemma splitAtFirst_mem {c : Char} {l : List Char} {p : List Char × List Char}
    (h : splitAtFirst c l = some p) : c ∈ l := by
  induction l generalizing p with
  | nil => cases h
  | cons x rest ih =>
    unfold splitAtFirst at h
    by_cases hx : (x == c) = true
    · have hxc : x = c := by simpa using hx
      rw [hxc]
      exact List.mem_cons_self ..
    · rw [if_neg hx] at h
      rcases ho : splitAtFirst c rest with _ | q
      · rw [ho] at h
        cases h
      · exact List.mem_cons_of_mem _ (ih ho)

lemma parseIPv6core_zone {s : List Char} {z : String} {a : Addr}
    (h : parseIPv6core s z = some a) : a.zone = z := by
  unfold parseIPv6core at h
  split at h
  · split at h
    · have ha : Addr.v6 (List.replicate 8 0) z = a := by simpa using h
      rw [← ha]
      rfl
    · rcases hp : p6loop 9 (s.drop 2) [] (some 0) with _ | g
      · rw [hp] at h
        cases h
      · rw [hp] at h
        have ha : Addr.v6 g z = a := by simpa using h
        rw [← ha]
        rfl
  · rcases hp : p6loop 9 s [] none with _ | g
    · rw [hp] at h
      cases h
    · rw [hp] at h
      have ha : Addr.v6 g z = a := by simpa using h
      rw [← ha]
      rfl

/-- A parsed address carries a non-empty zone only when the input contained
a `%` separator. -/
lemma parseAddr_zone_percent {ip : String} {a : Addr}
    (h : parseAddr ip = some a) (hz : a.zone ≠ "") : '%' ∈ ip.data := by
  unfold parseAddr at h
  split at h
  · rcases hp : parseIPv4 ip.data with _ | q
    · rw [hp] at h
      cases h
    · rw [hp] at h
      have ha : Addr.v4 q.1 q.2.1 q.2.2.1 q.2.2.2 = a := by simpa using h
      rw [← ha] at hz
      exact absurd rfl hz
  · unfold parseIPv6 at h
    split at h
    · rename_i p heq
      split at h
      · cases h
      · exact splitAtFirst_mem heq
    · have := parseIPv6core_zone h
      exact absurd this hz
  · cases h

lemma natDecChars_mem {fuel n : Nat} {c : Char} (h : c ∈ natDecChars fuel n) :
    ∃ k, k < 10 ∧ c = decDigitChar k := by
  induction fuel generalizing n with
  | zero => cases h
  | succ fuel ih =>
    unfold natDecChars at h
    split at h
    · rename_i hn
      refine ⟨n, hn, ?_⟩
      simpa using h
    · rcases List.mem_append.mp h with hl | hr
      · exact ih hl
      · exact ⟨n % 10, by omega, by simpa using hr⟩

lemma natHexChars_mem {fuel n : Nat} {c : Char} (h : c ∈ natHexChars fuel n) :
    ∃ k, k < 16 ∧ c = hexDigitCharLower k := by
  induction fuel generalizing n with
  | zero => cases h
  | succ fuel ih =>
    unfold natHexChars at h
    split at h
    · rename_i hn
      refine ⟨n, hn, ?_⟩
      simpa using h
    · rcases List.mem_append.mp h with hl | hr
      · exact ih hl
      · exact ⟨n % 16, by omega, by simpa using hr⟩

lemma decDigitChar_ne_pct {k : Nat} (hk : k < 10) : decDigitChar k ≠ '%' := by
  interval_cases k <;> decide

lemma hexDigitCharLower_ne_pct {k : Nat} (hk : k < 16) : hexDigitCharLower k ≠ '%' := by
  interval_cases k <;> decide

lemma natToChars_ne_pct {n : Nat} : '%' ∉ natToChars n := by
  intro h
  obtain ⟨k, hk, hc⟩ := natDecChars_mem h
  exact decDigitChar_ne_pct hk hc.symm

lemma renderV4_no_pct {a b c d : Nat} : '%' ∉ renderV4 a b c d := by
  intro hmem
  unfold renderV4 at hmem
  simp only [List.mem_append, List.mem_cons] at hmem
  have h1 : ∀ n : Nat, '%' ∉ natToChars n := fun n => natToChars_ne_pct
  have h2 : ('%' : Char) = '.' → False := by decide
  tauto

lemma v6chunks_mem {g : List Nat} {zs ze fuel i : Nat} {c : Char}
    (h : c ∈ v6chunks g zs ze fuel i) :
    c = ':' ∨ ∃ k, k < 16 ∧ c = hexDigitCharLower k := by
  induction fuel generalizing i with
  | zero => cases h
  | succ fuel ih =>
    unfold v6chunks at h
    split at h
    · cases h
    · split at h
      · rcases List.mem_cons.mp h with h1 | h
        · exact Or.inl h1
        rcases List.mem_cons.mp h with h2 | h
        · exact Or.inl h2
        split at h
        · cases h
        · rcases List.mem_append.mp h with hx | hrec
          · exact Or.inr (natHexChars_mem (by simpa [natToHexChars] using hx))
          · exact ih hrec
      · rcases List.mem_append.mp h with hpre | h
        · rcases List.mem_append.mp hpre with hcolon | hx
          · split at hcolon
            · simp only [List.mem_singleton] at hcolon
              exact Or.inl hcolon
            · cases hcolon
          · exact Or.inr (natHexChars_mem (by simpa [natToHexChars] using hx))
        · exact ih h

lemma render6core_no_pct {g : List Nat} : '%' ∉ render6core g := by
  intro hmem
  unfold render6core at hmem
  split at hmem
  · rcases List.mem_append.mp hmem with h | h
    · exact absurd h (by decide)
    · exact renderV4_no_pct h
  · rcases v6chunks_mem hmem with h | ⟨k, hk, hc⟩
    · exact absurd h (by decide)
    · exact hexDigitCharLower_ne_pct hk hc.symm

lemma render_no_pct {a : Addr} (hz : a.zone = "") : '%' ∉ (a.render).data := by
  intro hmem
  cases a with
  | v4 b0 b1 b2 b3 =>
    exact renderV4_no_pct hmem
  | v6 g z =>
    have hz' : z = "" := hz
    subst hz'
    simp only [Addr.render, if_pos rfl] at hmem
    exact render6core_no_pct hmem

/-- C9: `ValidIP` rejects every input that parses with a scope zone, and
every input that is not the canonical rendering of the parsed,
zone-stripped address; on canonical input it succeeds exactly when the
address is not in the IANA special-purpose registry
(`ValidIP ip = IsReservedAddr a`). -/
theorem claim_C9 :
    (∀ (ip : String) (a : Addr), parseAddr ip = some a → a.zone ≠ "" →
      ValidIP ip = some errIPInvalid) ∧
    (∀ (ip : String) (a : Addr), parseAddr ip = some a →
      (a.withZone "").render ≠ ip → ValidIP ip = some errIPInvalid) ∧
    (∀ (ip : String) (a : Addr), parseAddr ip = some a →
      (a.withZone "").render = ip → ValidIP ip = IsReservedAddr a) := by
  have hne : ∀ (ip : String) (a : Addr), parseAddr ip = some a → ip ≠ "" := by
    intro ip a h hip
    rw [hip] at h
    cases h
  have part2 : ∀ (ip : String) (a : Addr), parseAddr ip = some a →
      (a.withZone "").render ≠ ip → ValidIP ip = some errIPInvalid := by
    intro ip a h hr
    unfold ValidIP
    rw [if_neg (hne ip a h), h]
    show (if (a.withZone "").render ≠ ip then some errIPInvalid else IsReservedAddr a) =
      some errIPInvalid
    rw [if_pos hr]
  refine ⟨?_, part2, ?_⟩
  · intro ip a h hz
    apply part2 ip a h
    intro hr
    have hzz : (a.withZone "").zone = "" := by
      cases a <;> rfl
    have hpct := render_no_pct hzz
    rw [hr] at hpct
    exact hpct (parseAddr_zone_percent h hz)
  · intro ip a h hr
    unfold ValidIP
    rw [if_neg (hne ip a h), h]
    show (if (a.withZone "").render ≠ ip then some errIPInvalid else IsReservedAddr a) =
      IsReservedAddr a
    rw [if_neg (not_not_intro hr)]

theorem claim_C9_witness :
    ValidIP "fe80::1%eth0" = some errIPInvalid ∧
    ValidIP "1080:0:0:0:8:800:200C:417A" = some errIPInvalid ∧
    ValidIP "93.184.216.34" = IsReservedAddr (Addr.v4 93 184 216 34) ∧
    IsReservedAddr (Addr.v4 93 184 216 34) = none ∧
    ValidIP "192.0.2.1" = IsReservedAddr (Addr.v4 192 0 2 1) ∧
    IsReservedAddr (Addr.v4 192 0 2 1) ≠ none :=
  ⟨claim_C9.1 "fe80::1%eth0" (Addr.v6 [0xfe80, 0, 0, 0, 0, 0, 0, 1] "eth0")
      (by decide) (by decide),
   claim_C9.2.1 "1080:0:0:0:8:800:200C:417A"
      (Addr.v6 [0x1080, 0, 0, 0, 8, 0x800, 0x200c, 0x417a] "") (by decide) (by decide),
   claim_C9.2.2 "93.184.216.34" (Addr.v4 93 184 216 34) (by decide) (by decide),
   by decide,
   claim_C9.2.2 "192.0.2.1" (Addr.v4 192 0 2 1) (by decide) (by decide),
   by decide⟩

/-! ## Claim C10 -/

lemma buildExactMaps_ok {vs es ws : List String}
    (h : buildExactMaps vs = Except.ok (es, ws)) :
    es = vs ∧ ws = vs.map (fun v => String.mk ((splitN2Char '.' v.data).getD 1 [])) := by
  induction vs generalizing es ws with
  | nil =>
    unfold buildExactMaps at h
    simp only [Except.ok.injEq, Prod.mk.injEq] at h
    simp [← h.1, ← h.2]
  | cons v rest ih =>
    unfold buildExactMaps at h
    split at h
    · rename_i f second heq
      rcases hb : buildExactMaps rest with e | p
      · rw [hb] at h
        cases h
      · rcases p with ⟨es', ws'⟩
        rw [hb] at h
        simp only [bind, Except.bind, pure, Except.pure, Except.ok.injEq, Prod.mk.injEq] at h
        obtain ⟨h1, h2⟩ := ih hb
        rw [← h.1, ← h.2, h1, h2, List.map_cons, heq]
        simp
    · cases h

lemma buildIPBlocks_ok {ps : List String} {bs : List IPBlock}
    (h : buildIPBlocks ps = Except.ok bs) : ps.map parseCidr = bs.map some := by
  induction ps generalizing bs with
  | nil =>
    unfold buildIPBlocks at h
    simp only [Except.ok.injEq] at h
    simp [← h]
  | cons p rest ih =>
    unfold buildIPBlocks at h
    split at h
    · cases h
    · rename_i blk heq
      rcases hb : buildIPBlocks rest with e | bs'
      · rw [hb] at h
        cases h
      · rw [hb] at h
        simp only [bind, Except.bind, pure, Except.pure, Except.ok.injEq] at h
        rw [← h, List.map_cons, List.map_cons, heq, ih hb]

lemma processIdentPolicy_err {pa : AuthorityImpl} {policy : BlockedIdentsPolicy}
    (h : (processIdentPolicy pa policy).2.isSome = true) :
    (processIdentPolicy pa policy).1 = pa := by
  rcases hex : buildExactMaps policy.ExactBlockedNames with e | p
  · simp [processIdentPolicy, hex]
  rcases p with ⟨es, ws⟩
  rcases hib : buildIPBlocks policy.AdminBlockedPrefixes with e | blocks
  · simp [processIdentPolicy, hex, hib]
  simp [processIdentPolicy, hex, hib] at h

/-- C10: when loading an identifier policy fails — unreadable file,
unmarshalling failure, an empty `HighRiskBlockedNames` or
`ExactBlockedNames` list, a single-label `ExactBlockedNames` entry, or an
unparseable `AdminBlockedPrefixes` entry — the authority's four blocklist
tables are left unchanged; on success all four are replaced at once with
the tables computed from the policy. -/
theorem claim_C10 (readFile : String → Option String)
    (unmarshal : String → Option BlockedIdentsPolicy)
    (pa : AuthorityImpl) (f : String) :
    ((LoadIdentPolicyFile readFile unmarshal pa f).2.isSome = true →
      (LoadIdentPolicyFile readFile unmarshal pa f).1 = pa) ∧
    (∀ policy : BlockedIdentsPolicy, (processIdentPolicy pa policy).2 = none →
      ∃ blocks : List IPBlock,
        policy.AdminBlockedPrefixes.map parseCidr = blocks.map some ∧
        (processIdentPolicy pa policy).1 =
          { pa with
              domainBlocklist :=
                some (policy.HighRiskBlockedNames ++ policy.AdminBlockedNames)
              fqdnBlocklist := some policy.ExactBlockedNames
              wildcardFqdnBlocklist := some (policy.ExactBlockedNames.map
                (fun v => String.mk ((splitN2Char '.' v.data).getD 1 [])))
              ipPrefixBlocklist := blocks }) := by
  constructor
  · intro hsome
    unfold LoadIdentPolicyFile at hsome ⊢
    rcases hr : readFile f with _ | configBytes
    · simp [hr]
    rcases hu : unmarshal configBytes with _ | policy
    · simp [hr, hu]
    simp only [hr, hu] at hsome ⊢
    by_cases hh : policy.HighRiskBlockedNames.length = 0
    · simp [hh]
    by_cases he : policy.ExactBlockedNames.length = 0
    · simp [hh, he]
    simp only [if_neg hh, if_neg he] at hsome ⊢
    exact processIdentPolicy_err hsome
  · intro policy hnone
    rcases hex : buildExactMaps policy.ExactBlockedNames with e | p
    · simp [processIdentPolicy, hex] at hnone
    rcases p with ⟨es, ws⟩
    rcases hib : buildIPBlocks policy.AdminBlockedPrefixes with e | blocks
    · simp [processIdentPolicy, hex, hib] at hnone
    obtain ⟨h1, h2⟩ := buildExactMaps_ok hex
    refine ⟨blocks, buildIPBlocks_ok hib, ?_⟩
    simp only [processIdentPolicy, hex, hib]
    rw [h1, h2]

def policyC10 : BlockedIdentsPolicy :=
  { ExactBlockedNames := ["a.b.c"]
    HighRiskBlockedNames := ["b.c"]
    AdminBlockedNames := ["x.y"]
    AdminBlockedPrefixes := ["10.0.0.0/8"] }

theorem claim_C10_witness :
    (LoadIdentPolicyFile (fun _ => some "cfg")
        (fun _ => some { ExactBlockedNames := ["nodot"], HighRiskBlockedNames := ["b.c"],
                         AdminBlockedNames := [], AdminBlockedPrefixes := [] })
        paInit "policy.yaml").1 = paInit ∧
    (∃ blocks : List IPBlock,
        policyC10.AdminBlockedPrefixes.map parseCidr = blocks.map some ∧
        (processIdentPolicy paInit policyC10).1 =
          { paInit with
              domainBlocklist :=
                some (policyC10.HighRiskBlockedNames ++ policyC10.AdminBlockedNames)
              fqdnBlocklist := some policyC10.ExactBlockedNames
              wildcardFqdnBlocklist := some (policyC10.ExactBlockedNames.map
                (fun v => String.mk ((splitN2Char '.' v.data).getD 1 [])))
              ipPrefixBlocklist := blocks }) :=
  ⟨(claim_C10 (fun _ => some "cfg")
      (fun _ => some { ExactBlockedNames := ["nodot"], HighRiskBlockedNames := ["b.c"],
                       AdminBlockedNames := [], AdminBlockedPrefixes := [] })
      paInit "policy.yaml").1 (by decide),
   (claim_C10 (fun _ => none) (fun _ => none) paInit "unused").2 policyC10 (by decide)⟩

/-! ## Claim C8 -/

/-- The claim-relevant projection of a surfaced challenge: its type, its
status and its validation timestamp. -/
def challengeSurface (c : ChallengePB) : String × String × Option Int :=
  (c.typ, c.status, c.validated)

/-- The four challenge types and their bitmap positions, as the claim
speaks of "challenge-type bits". -/
def knownChallTypes : List (Nat × String) :=
  [(0, ChallengeTypeHTTP01), (1, ChallengeTypeDNS01),
   (2, ChallengeTypeTLSALPN01), (3, ChallengeTypeDNSAccount01)]

/-- The claim's expected surface when no challenge has been attempted: one
pending challenge per challenge-type bit set in the bitmap. -/
def pendingSurfaceSpec (am : AuthzModel) : List (String × String × Option Int) :=
  knownChallTypes.filterMap (fun bt =>
    if am.challenges / 2 ^ bt.1 % 2 = 1 then some (bt.2, StatusPending, none) else none)

/-- The claim's expected surface once challenge `a` has been attempted:
only the attempted challenge, invalid exactly when a validation error is
stored and valid otherwise, with the attempt timestamp attached. -/
def attemptedSurfaceSpec (am : AuthzModel) (a : Nat) : List (String × String × Option Int) :=
  [(uintToChallType a,
    if am.validationError ≠ "" then StatusInvalid else StatusValid,
    am.attemptedAt)]

/-- The stored row's opaque byte columns decode: the validation error (when
present) unmarshals and converts, and the validation records unmarshal and
survive the per-record pipeline for the given challenge type. -/
def decodersSucceed (ext : ExtDecoders) (am : AuthzModel) (challType : String) : Prop :=
  (am.validationError ≠ "" →
    ∃ p q, ext.unmarshalProblem am.validationError = some p ∧ ext.problemToPB p = some q) ∧
  ∃ rs rs', ext.unmarshalRecords am.validationRecord = some rs ∧
    buildRecordsPB ext challType rs = Except.ok rs'

lemma populateAttemptedFields_surface {ext : ExtDecoders} {am : AuthzModel}
    {ch : ChallengePB} (hd : decodersSucceed ext am ch.typ) :
    ∃ c, populateAttemptedFields ext am ch = Except.ok c ∧
      c.typ = ch.typ ∧
      c.status = (if am.validationError ≠ "" then StatusInvalid else StatusValid) ∧
      c.validated = ch.validated := by
  obtain ⟨hprob, rs, rs', hrs, hbuild⟩ := hd
  by_cases hve : am.validationError = ""
  · refine ⟨{ ch with status := StatusValid, validationrecords := rs' }, ?_, rfl, ?_, rfl⟩
    · simp [populateAttemptedFields, hve, bind, Except.bind, pure, Except.pure, hrs, hbuild]
    · rw [if_neg (not_not_intro hve)]
  · obtain ⟨p, q, hp, hq⟩ := hprob hve
    refine ⟨{ ch with status := StatusInvalid, error := some q, validationrecords := rs' },
      ?_, rfl, ?_, rfl⟩
    · simp [populateAttemptedFields, hve, bind, Except.bind, pure, Except.pure,
        hp, hq, hrs, hbuild]
    · rw [if_pos hve]

lemma buildChallenges_pending {ext : ExtDecoders} {am : AuthzModel}
    (hatt : am.attempted = none) (ps : List Nat) :
    buildChallenges ext am ps = Except.ok (ps.filterMap (fun pos =>
      if (am.challenges >>> pos) % 2 = 1 then
        some ({ typ := uintToChallType pos, status := StatusPending,
                token := ext.b64url am.token } : ChallengePB)
      else none)) := by
  induction ps with
  | nil => rfl
  | cons pos rest ih =>
    unfold buildChallenges
    rw [hatt]
    by_cases hbit : (am.challenges >>> pos) % 2 = 1
    · rw [if_pos hbit]
      simp only [bind, Except.bind, pure, Except.pure, ih, List.filterMap_cons, hbit, if_pos]
    · rw [if_neg hbit, ih]
      simp [List.filterMap_cons, hbit]

lemma buildChallenges_attempted {ext : ExtDecoders} {am : AuthzModel} {a : Nat}
    (hatt : am.attempted = some a)
    (hd : decodersSucceed ext am (uintToChallType a)) (ps : List Nat) :
    ∃ cs, buildChallenges ext am ps = Except.ok cs ∧
      cs.map challengeSurface = ps.filterMap (fun pos =>
        if (am.challenges >>> pos) % 2 = 1 ∧ uintToChallType a = uintToChallType pos then
          some (uintToChallType pos,
            (if am.validationError ≠ "" then StatusInvalid else StatusValid),
            am.attemptedAt)
        else none) := by
  induction ps with
  | nil => exact ⟨[], rfl, rfl⟩
  | cons pos rest ih =>
    obtain ⟨cs, hcs, hmap⟩ := ih
    by_cases hbit : (am.challenges >>> pos) % 2 = 1
    · by_cases hty : uintToChallType a = uintToChallType pos
      · have hd' : decodersSucceed ext am
            (({ typ := uintToChallType pos, status := StatusPending,
                token := ext.b64url am.token } : ChallengePB).typ) := by
          show decodersSucceed ext am (uintToChallType pos)
          rw [← hty]
          exact hd
        obtain ⟨c, hpop, htyp, hstat, hval⟩ := populateAttemptedFields_surface hd'
        refine ⟨{ c with validated := am.attemptedAt } :: cs, ?_, ?_⟩
        · unfold buildChallenges
          rw [if_pos hbit]
          simp only [hatt]
          rw [if_pos hty]
          simp only [bind, Except.bind, pure, Except.pure, hpop, hcs]
        · simp only [List.map_cons, List.filterMap_cons, if_pos (And.intro hbit hty), hmap,
            challengeSurface]
          simp [htyp, hstat]
      · refine ⟨cs, ?_, ?_⟩
        · unfold buildChallenges
          rw [if_pos hbit]
          simp only [hatt]
          rw [if_neg hty]
          exact hcs
        · rw [hmap, List.filterMap_cons]
          have : ¬ ((am.challenges >>> pos) % 2 = 1 ∧
              uintToChallType a = uintToChallType pos) := by
            rintro ⟨_, h2⟩
            exact hty h2
          simp [this]
    · refine ⟨cs, ?_, ?_⟩
      · unfold buildChallenges
        rw [if_neg hbit]
        exact hcs
      · rw [hmap, List.filterMap_cons]
        have : ¬ ((am.challenges >>> pos) % 2 = 1 ∧
            uintToChallType a = uintToChallType pos) := by
          rintro ⟨h1, _⟩
          exact hbit h1
        simp [this]

lemma range8_eq : List.range 8 = [0, 1, 2, 3, 4, 5, 6, 7] := by decide

lemma highBits_zero {n p : Nat} (h16 : n < 16) (hp : 4 ≤ p) : n >>> p = 0 := by
  rw [Nat.shiftRight_eq_div_pow]
  apply Nat.div_eq_of_lt
  calc n < 16 := h16
    _ = 2 ^ 4 := by norm_num
    _ ≤ 2 ^ p := Nat.pow_le_pow_right (by norm_num) hp

lemma pending_surface_eq {ext : ExtDecoders} {am : AuthzModel} (h16 : am.challenges < 16) :
    ((List.range 8).filterMap (fun pos =>
      if (am.challenges >>> pos) % 2 = 1 then
        some ({ typ := uintToChallType pos, status := StatusPending,
                token := ext.b64url am.token } : ChallengePB)
      else none)).map challengeSurface = pendingSurfaceSpec am := by
  rw [List.map_filterMap]
  unfold pendingSurfaceSpec knownChallTypes
  rw [range8_eq]
  have h4 : am.challenges / 16 = 0 := Nat.div_eq_of_lt (by omega)
  have h5 : am.challenges / 32 = 0 := Nat.div_eq_of_lt (by omega)
  have h6 : am.challenges / 64 = 0 := Nat.div_eq_of_lt (by omega)
  have h7 : am.challenges / 128 = 0 := Nat.div_eq_of_lt (by omega)
  by_cases b0 : am.challenges % 2 = 1 <;>
  by_cases b1 : am.challenges / 2 % 2 = 1 <;>
  by_cases b2 : am.challenges / 4 % 2 = 1 <;>
  by_cases b3 : am.challenges / 8 % 2 = 1 <;>
    simp [List.filterMap_cons, Nat.shiftRight_eq_div_pow, challengeSurface,
      b0, b1, b2, b3, h4, h5, h6, h7, uintToChallType]

lemma attempted_surface_single {am : AuthzModel} {a : Nat} (_h16 : am.challenges < 16)
    (ha : a < 4) (hbit : (am.challenges >>> a) % 2 = 1)
    (X : String × String × Option Int) :
    ((List.range 8).filterMap (fun pos =>
      if (am.challenges >>> pos) % 2 = 1 ∧ uintToChallType a = uintToChallType pos then
        some X else none)) = [X] := by
  rw [range8_eq]
  interval_cases a <;>
    simp_all [List.filterMap_cons, uintToChallType, ChallengeTypeHTTP01, ChallengeTypeDNS01,
      ChallengeTypeTLSALPN01, ChallengeTypeDNSAccount01]

/-- C8: for a stored authorization row whose bitmap uses only the four
challenge-type bits, `modelToAuthzPB` surfaces one pending challenge per
set bit when nothing has been attempted; once `attempted` is set (to an
offered challenge type) the surfaced authorization contains only the
attempted challenge, with status invalid exactly when a validation error is
stored and valid otherwise and with the attempt timestamp attached — all
non-attempted challenges vanish. -/
theorem claim_C8 (ext : ExtDecoders) (am : AuthzModel)
    (h16 : am.challenges < 16) (hid : am.identifierType < 2) :
    (am.attempted = none → ∃ pb, modelToAuthzPB ext am = Except.ok pb ∧
      pb.challenges.map challengeSurface = pendingSurfaceSpec am) ∧
    (∀ a : Nat, am.attempted = some a → a < 4 → (am.challenges >>> a) % 2 = 1 →
      decodersSucceed ext am (uintToChallType a) →
      ∃ pb, modelToAuthzPB ext am = Except.ok pb ∧
        pb.challenges.map challengeSurface = attemptedSurfaceSpec am a) := by
  have hidt : ∃ t, uintToIdentifierType am.identifierType = some t := by
    have h2 : am.identifierType = 0 ∨ am.identifierType = 1 := by omega
    rcases h2 with h | h <;> rw [h] <;> exact ⟨_, rfl⟩
  obtain ⟨t, ht⟩ := hidt
  constructor
  · intro hatt
    have hpb : modelToAuthzPB ext am = Except.ok
        { id := String.mk (intToChars am.id)
          status := (uintToStatus am.status).getD ""
          identifier := ⟨t, am.identifierValue⟩
          registrationID := am.registrationID
          expires := am.expires
          certificateProfileName := am.certificateProfileName.getD ""
          challenges := (List.range 8).filterMap (fun pos =>
            if (am.challenges >>> pos) % 2 = 1 then
              some ({ typ := uintToChallType pos, status := StatusPending,
                      token := ext.b64url am.token } : ChallengePB)
            else none) } := by
      simp only [modelToAuthzPB, ht, bind, Except.bind, pure, Except.pure,
        buildChallenges_pending hatt (List.range 8)]
    exact ⟨_, hpb, pending_surface_eq h16⟩
  · intro a hatt ha hbit hd
    obtain ⟨cs, hcs, hmap⟩ := buildChallenges_attempted hatt hd (List.range 8)
    have hpb : modelToAuthzPB ext am = Except.ok
        { id := String.mk (intToChars am.id)
          status := (uintToStatus am.status).getD ""
          identifier := ⟨t, am.identifierValue⟩
          registrationID := am.registrationID
          expires := am.expires
          certificateProfileName := am.certificateProfileName.getD ""
          challenges := cs } := by
      simp only [modelToAuthzPB, ht, bind, Except.bind, pure, Except.pure, hcs]
    refine ⟨_, hpb, ?_⟩
    show cs.map challengeSurface = attemptedSurfaceSpec am a
    rw [hmap]
    have hX := attempted_surface_single h16 ha hbit
      (uintToChallType a, (if am.validationError ≠ "" then StatusInvalid else StatusValid),
        am.attemptedAt)
    unfold attemptedSurfaceSpec
    rw [← hX]
    apply List.filterMap_congr
    intro pos hpos
    by_cases hc : (am.challenges >>> pos) % 2 = 1 ∧ uintToChallType a = uintToChallType pos
    · rw [if_pos hc, if_pos hc, hc.2]
    · rw [if_neg hc, if_neg hc]

def extW : ExtDecoders :=
  { unmarshalProblem := fun s => some s
    problemToPB := fun p => some p
    unmarshalRecords := fun _ => some []
    urlParse := fun _ => none
    b64url := fun s => s }

def amW : AuthzModel :=
  { id := 7, identifierType := 0, identifierValue := "a.com", registrationID := 3
    certificateProfileName := none, status := 1, expires := 99, challenges := 7
    attempted := some 1, attemptedAt := some 55, token := "tok"
    validationError := "", validationRecord := "[]" }

theorem claim_C8_witness :
    (∃ pb, modelToAuthzPB extW { amW with attempted := none } = Except.ok pb ∧
      pb.challenges.map challengeSurface =
        pendingSurfaceSpec { amW with attempted := none }) ∧
    (∃ pb, modelToAuthzPB extW amW = Except.ok pb ∧
      pb.challenges.map challengeSurface = attemptedSurfaceSpec amW 1) :=
  ⟨(claim_C8 extW { amW with attempted := none } (by decide) (by decide)).1 rfl,
   (claim_C8 extW amW (by decide) (by decide)).2 1 rfl (by decide) (by decide)
     ⟨fun h => absurd rfl h, [], [], rfl, rfl⟩⟩

end Boulder
